import Mathlib

/-
Verification of the rotation-matrix relaxation engine
(drake/solvers/rotation_constraint.cc) against its specification.

The C++ source is shallowly embedded below.  Machine doubles are modelled as
exact real numbers; Eigen 3-vectors as a structure of three reals; the
symbolic-expression layer as a small AST; the caller-owned MathematicalProgram
as a state holding a variable counter and an ordered list of emitted
constraint descriptors.  DRAKE_DEMAND failures (and the one throw) are
modelled as Except.error results.  The debug-only DRAKE_ASSERT preconditions
of the geometry helpers are stated as theorem hypotheses, except in
PickBinaryExpressionGivenInterval where the assertion itself is the subject of
a claim and is therefore embedded explicitly.
-/

namespace DrakeRotation

/-- An Eigen::Vector3d, with entries as exact reals. -/
structure V3 where
  x : ℝ
  y : ℝ
  z : ℝ

def V3.zero : V3 := ⟨0, 0, 0⟩

noncomputable def V3.sub (a b : V3) : V3 := ⟨a.x - b.x, a.y - b.y, a.z - b.z⟩

noncomputable def V3.neg (a : V3) : V3 := ⟨-a.x, -a.y, -a.z⟩

noncomputable def V3.sdiv (a : V3) (r : ℝ) : V3 := ⟨a.x / r, a.y / r, a.z / r⟩

noncomputable def V3.dot (a b : V3) : ℝ := a.x * b.x + a.y * b.y + a.z * b.z

noncomputable def V3.cross (a b : V3) : V3 :=
  ⟨a.y * b.z - a.z * b.y, a.z * b.x - a.x * b.z, a.x * b.y - a.y * b.x⟩

noncomputable def V3.normSq (a : V3) : ℝ := a.x * a.x + a.y * a.y + a.z * a.z

/-- Eigen's .norm() / .lpNorm of order 2. -/
noncomputable def V3.norm (a : V3) : ℝ := Real.sqrt a.normSq

noncomputable def V3.sum (a : V3) : ℝ := a.x + a.y + a.z

def V3.get (a : V3) : ℕ → ℝ
  | 0 => a.x
  | 1 => a.y
  | 2 => a.z
  | _ => 0

def V3.set (a : V3) : ℕ → ℝ → V3
  | 0, v => ⟨v, a.y, a.z⟩
  | 1, v => ⟨a.x, v, a.z⟩
  | 2, v => ⟨a.x, a.y, v⟩
  | _, _ => a

/-- Componentwise non-negativity, (v.array() >= 0).all(). -/
def V3.Nonneg (a : V3) : Prop := 0 ≤ a.x ∧ 0 ≤ a.y ∧ 0 ≤ a.z

/-- Symbolic linear expressions over decision variables (drake::symbolic::Expression,
restricted to the linear fragment the core emits).  Variables are global indices. -/
inductive SymExpr where
  | c : ℝ → SymExpr
  | var : ℕ → SymExpr
  | add : SymExpr → SymExpr → SymExpr
  | sub : SymExpr → SymExpr → SymExpr
  | neg : SymExpr → SymExpr
  | smul : ℝ → SymExpr → SymExpr

noncomputable instance : Zero SymExpr := ⟨SymExpr.c 0⟩

noncomputable instance : One SymExpr := ⟨SymExpr.c 1⟩

instance : Add SymExpr := ⟨SymExpr.add⟩

instance : Sub SymExpr := ⟨SymExpr.sub⟩

instance : Neg SymExpr := ⟨SymExpr.neg⟩

/-- Evaluate a symbolic expression at an assignment of the decision variables. -/
noncomputable def SymExpr.eval (σ : ℕ → ℝ) : SymExpr → ℝ
  | .c r => r
  | .var i => σ i
  | .add a b => a.eval σ + b.eval σ
  | .sub a b => a.eval σ - b.eval σ
  | .neg a => -(a.eval σ)
  | .smul r a => r * a.eval σ

/-- Variable-index triple for a VectorDecisionVariable of size 3. -/
abbrev Var3 := ℕ × ℕ × ℕ

/-- a.dot(v) for a constant 3-vector a and a variable 3-vector v. -/
noncomputable def dotE (a : V3) (w : Var3) : SymExpr :=
  .add (.add (.smul a.x (.var w.1)) (.smul a.y (.var w.2.1))) (.smul a.z (.var w.2.2))

/-- a.cross(v) for a constant 3-vector a and a variable 3-vector v. -/
noncomputable def crossE (a : V3) (w : Var3) : SymExpr × SymExpr × SymExpr :=
  (.sub (.smul a.y (.var w.2.2)) (.smul a.z (.var w.2.1)),
   .sub (.smul a.z (.var w.1)) (.smul a.x (.var w.2.2)),
   .sub (.smul a.x (.var w.2.1)) (.smul a.y (.var w.1)))

/-- Constraint descriptors, one per AddConstraint-style call that the embedded
functions perform on the caller-owned MathematicalProgram. -/
inductive Cons where
  /-- AddBoundingBoxConstraint(lb, ub, vars). -/
  | bb : ℝ → ℝ → List ℕ → Cons
  /-- AddLinearConstraint(row, lb, ub, vars): lb <= row.dot(vars) <= ub. -/
  | rangeRow : V3 → ℝ → ℝ → Var3 → Cons
  /-- AddLinearConstraint(e1 <= e2) on scalar symbolic expressions. -/
  | le : SymExpr → SymExpr → Cons
  /-- AddLinearConstraint on a 3-vector formula, componentwise lhs <= rhs. -/
  | leVec : List (SymExpr × SymExpr) → Cons

/-- The caller-owned MathematicalProgram: a variable counter (variables are
indices 0, 1, ... in creation order) and the ordered list of constraints
registered so far. -/
structure Prog where
  nv : ℕ
  cons : List Cons

def Cons.isRangeRow : Cons → Bool
  | .rangeRow _ _ _ _ => true
  | _ => false

/-- EnvelopeMinValue (the phi(i) breakpoint function): i / N. -/
noncomputable def envelopeMinValue (i N : ℕ) : ℝ := (i : ℝ) / (N : ℝ)

/-- Machine epsilon of an IEEE double, numeric_limits of double epsilon() = 2^-52. -/
noncomputable def machineEps : ℝ := 1 / 2 ^ 52

/-- Modelled from the spec: internal::FlipVector (declared in
rotation_constraint_internal.h, whose definition is not under src/).
Reflects a vector into orthant o, 0 <= o <= 7: bit i of o set negates axis i,
orthant 0 being the all-positive orthant. -/
noncomputable def flipVector (v : V3) (o : ℕ) : V3 :=
  ⟨if o.testBit 0 then -v.x else v.x,
   if o.testBit 1 then -v.y else v.y,
   if o.testBit 2 then -v.z else v.z⟩

/-- Modelled from the spec: OrthantToAxisMask, as FlipVector applied to the
all-ones vector — axis i has positive sign in orthant o iff bit i of o is clear. -/
def orthantAxisPositive (o axis : ℕ) : Bool := ! o.testBit axis

/-- PositiveAxisIntervalIndexToFullAxisIntervalIndex, for one axis: the half
axis has intervals (0, phi 1, ..., 1); on the full axis a positive-side index
becomes idx + N and a negative-side index becomes N - 1 - idx. -/
def positiveAxisIntervalIndexToFullAxisIntervalIndex (idx o axis N : ℕ) : ℕ :=
  if orthantAxisPositive o axis then idx + N else N - 1 - idx

/-- Number of columns of a Gray-code table given as a list of rows
(Eigen::MatrixXi has uniform row length). -/
def grayCodesCols (gc : List (List ℤ)) : ℕ := (gc.headD []).length

/-- PickBinaryExpressionGivenInterval: sum over the Gray-code bits of row
interval_idx of (1 - b(i)) where the bit is set and b(i) where it is clear.
This is the value/expression computation; the DRAKE_ASSERT-checked variant is
pickBinaryExpressionGivenIntervalChecked below. -/
def pickBinaryExpressionGivenInterval {α : Type} [Zero α] [One α] [Add α] [Sub α]
    (interval_idx : ℕ) (gray_codes : List (List ℤ)) (b : List α) : α :=
  (List.range (grayCodesCols gray_codes)).foldl
    (fun ret i =>
      ret + (if ((gray_codes.getD interval_idx []).getD i 0) ≠ 0
             then 1 - b.getD i 0 else b.getD i 0))
    0

/-- PickBinaryExpressionGivenInterval with its two DRAKE_ASSERT checks embedded
(the asserts are the subject of a safety claim), and with every matrix/vector
element access performed through a bounds-checked read: an out-of-bounds read
(undefined behaviour in the C++ source) is reported as an error. -/
def pickBinaryExpressionGivenIntervalChecked {α : Type} [Zero α] [One α] [Add α] [Sub α]
    (interval_idx : ℤ) (gray_codes : List (List ℤ)) (b : List α) : Except String α :=
  if ¬ (0 ≤ interval_idx ∧ interval_idx ≤ (gray_codes.length : ℤ)) then
    .error ("DRAKE_ASSERT failed: interval_idx range")
  else if ¬ (b.length = grayCodesCols gray_codes) then
    .error ("DRAKE_ASSERT failed: b.rows() == gray_codes.cols()")
  else
    (List.range (grayCodesCols gray_codes)).foldlM
      (fun ret i =>
        match gray_codes.get? interval_idx.toNat with
        | none => .error ("matrix access out of bounds")
        | some row =>
          match row.get? i, b.get? i with
          | some g, some bi => .ok (ret + (if g ≠ 0 then 1 - bi else bi))
          | _, _ => .error ("matrix access out of bounds"))
      0

/-- Modelled from the spec: the reflected-Gray-code value of k (the Gray-code
table generator math::CalculateReflectedGrayCodes lives in drake/math/gray_code,
which is not under src/): consecutive integers differ in exactly one bit. -/
def grayCodeValue (k : ℕ) : ℕ := k ^^^ (k >>> 1)

/-- Modelled from the spec: math::CalculateReflectedGrayCodes(d) — the standard
reflected binary Gray code with d digits as a 0/1 matrix of 2^d rows. -/
def calculateReflectedGrayCodes (d : ℕ) : List (List ℤ) :=
  (List.range (2 ^ d)).map (fun k =>
    (List.range d).map (fun i => if (grayCodeValue k).testBit i then (1 : ℤ) else 0))

/-- Modelled from the spec: CeilLog2 from mixed_integer_optimization_util.h
(not under src/): the ceiling of the base-2 logarithm. -/
def ceilLog2 (n : ℕ) : ℕ := Nat.clog 2 n

/-- NewRotationMatrixVars: creates a 3x3 matrix of continuous decision
variables (column-major ids), adds the elementwise bounding box [-1, 1] and
the linear trace constraint -1 <= R(0,0)+R(1,1)+R(2,2) <= 3. -/
noncomputable def newRotationMatrixVars (prog : Prog) : (ℕ → ℕ → ℕ) × Prog :=
  let R : ℕ → ℕ → ℕ := fun i j => prog.nv + 3 * j + i
  (R, { nv := prog.nv + 9,
        cons := prog.cons ++
          [Cons.bb (-1) 1 ((List.range 9).map (fun k => prog.nv + k)),
           Cons.rangeRow ⟨1, 1, 1⟩ (-1) 3 (R 0 0, R 1 1, R 2 2)] })

/-- AddNotInSameOrOppositeOrthantConstraint: when num_intervals_per_half_axis
equals 1 << CeilLog2(num_intervals_per_half_axis), for each column pair
(0,1), (0,2), (1,2) allocate auxiliary 3-vectors t and s and add
sum(t) <= 2, sum(s) <= 2 and the row constraints
-t(i) <= B(i,c0)+B(i,c1)-1 <= t(i), -s(i) <= B(i,c0)-B(i,c1) <= s(i);
otherwise do nothing. -/
noncomputable def addNotInSameOrOppositeOrthantConstraint
    (prog : Prog) (B : ℕ → ℕ → ℕ) (N : ℕ) : Prog :=
  if N = 1 <<< ceilLog2 N then
    [(0, 1), (0, 2), (1, 2)].foldl
      (fun p pair =>
        let c0 := pair.1
        let c1 := pair.2
        let t0 := p.nv
        let s0 := p.nv + 3
        { nv := p.nv + 6,
          cons := p.cons ++
            ([Cons.le (.add (.add (.var t0) (.var (t0 + 1))) (.var (t0 + 2))) (.c 2),
              Cons.le (.add (.add (.var s0) (.var (s0 + 1))) (.var (s0 + 2))) (.c 2)] ++
             (List.range 3).flatMap (fun i =>
               [Cons.le (.sub (.add (.var (B i c0)) (.var (B i c1))) (.c 1)) (.var (t0 + i)),
                Cons.le (.neg (.var (t0 + i)))
                  (.sub (.add (.var (B i c0)) (.var (B i c1))) (.c 1)),
                Cons.le (.sub (.var (B i c0)) (.var (B i c1))) (.var (s0 + i)),
                Cons.le (.neg (.var (s0 + i))) (.sub (.var (B i c0)) (.var (B i c1)))])) })
      prog
  else prog

/-- Given two coordinates, the (positive) third coordinate on the unit sphere:
sqrt(1 - x^2 - y^2).  (The DRAKE_ASSERT x*x + y*y <= 1 is debug-only and is
carried as a hypothesis in the theorems.) -/
noncomputable def Intercept (x y : ℝ) : ℝ := Real.sqrt (1 - x * x - y * y)

open Classical in
/-- ComputeTriangleOutwardNormal: the outward unit normal of the triangle
(pt0, pt1, pt2) in the first orthant, with the near-colinear throw, the sign
flip when the component sum is negative, and the entry/exit DRAKE_DEMANDs. -/
noncomputable def computeTriangleOutwardNormal (pt0 pt1 pt2 : V3) :
    Except String (V3 × ℝ) :=
  if ¬ (pt0.Nonneg ∧ pt1.Nonneg ∧ pt2.Nonneg) then
    .error ("DRAKE_DEMAND failed: vertices in first orthant")
  else
    let n0 := (pt2.sub pt0).cross (pt1.sub pt0)
    let n_norm := n0.norm
    if n_norm < 1 / 1000 then .error ("The points are almost colinear.")
    else
      let n1 := n0.sdiv n_norm
      let n2 := if n1.sum < 0 then n1.neg else n1
      if ¬ n2.Nonneg then
        .error ("DRAKE_DEMAND failed: normal componentwise nonnegative")
      else .ok (n2, pt0.dot n2)

/-- The i = 3.. loop of AreAllVerticesCoPlanar: true iff every remaining point
p satisfies |n.dot(p) - d| <= 1e-10 (the source breaks at the first failure). -/
noncomputable def coPlanarCheck (n : V3) (d : ℝ) : List V3 → Bool
  | [] => true
  | p :: rest => if 1 / 10 ^ 10 < |n.dot p - d| then false else coPlanarCheck n d rest

/-- AreAllVerticesCoPlanar: computes the plane through the first three points
and checks the rest; on failure returns false with n zeroed and d = 0. -/
noncomputable def areAllVerticesCoPlanar (pts : List V3) :
    Except String (Bool × V3 × ℝ) :=
  if pts.length < 3 then .error ("DRAKE_DEMAND failed: pts.size() >= 3")
  else do
    let nd ← computeTriangleOutwardNormal (pts.getD 0 V3.zero) (pts.getD 1 V3.zero)
      (pts.getD 2 V3.zero)
    if coPlanarCheck nd.1 nd.2 (pts.drop 3) then .ok (true, nd.1, nd.2)
    else .ok (false, V3.zero, 0)

/-- ComputeHalfSpaceRelaxationForBoxSphereIntersection.  The internal SOCP
(max d s.t. d <= n.dot(pts[i]), n.dot(n) <= 1, solved through
MathematicalProgram::Solve, an external collaborator not under src/) is
modelled from the spec as an oracle socpSolve returning the solver's solution;
everything around it — the co-planar early return and the two DRAKE_DEMAND
postcondition checks on the SOCP result — follows the source. -/
noncomputable def computeHalfSpaceRelaxationForBoxSphereIntersection
    (socpSolve : List V3 → V3 × ℝ) (pts : List V3) : Except String (V3 × ℝ) :=
  if pts.length < 3 then .error ("DRAKE_DEMAND failed: pts.size() >= 3")
  else do
    let co ← areAllVerticesCoPlanar pts
    if co.1 then .ok (co.2.1, co.2.2)
    else
      let nd := socpSolve pts
      if ¬ (0 < nd.1.x ∧ 0 < nd.1.y ∧ 0 < nd.1.z) then
        .error ("DRAKE_DEMAND failed: normal strictly positive")
      else if ¬ (0 < nd.2 ∧ nd.2 < 1) then
        .error ("DRAKE_DEMAND failed: 0 < d < 1")
      else .ok nd

/-- The inner validity loop of ComputeInnerFacetsForBoxSphereIntersection: the
halfspace c.dot(x) >= d through the triangle (i, j, k) is kept only when no
other vertex l violates c.dot(pts[l]) >= d - 1e-10. -/
noncomputable def innerFacetValid (pts : List V3) (i j k : ℕ) (cvec : V3) (dd : ℝ) :
    Prop :=
  ∀ l < pts.length, l ≠ i → l ≠ j → l ≠ k →
    ¬ (cvec.dot (pts.getD l V3.zero) < dd - 1 / 10 ^ 10)

open Classical in
/-- ComputeInnerFacetsForBoxSphereIntersection: enumerate the 3-subsets
(i < j < k) in loop order, compute each triangle plane, keep the valid ones as
rows (-c, -d) of A x <= b. -/
noncomputable def computeInnerFacetsForBoxSphereIntersection (pts : List V3) :
    Except String (List (V3 × ℝ)) :=
  if ¬ (∀ p ∈ pts, p.Nonneg) then
    .error ("DRAKE_DEMAND failed: pts in first orthant")
  else
    ((List.range pts.length).flatMap (fun i =>
      (List.range pts.length).flatMap (fun j =>
        (List.range pts.length).filterMap (fun k =>
          if i < j ∧ j < k then some (i, j, k) else none)))).foldlM
      (fun acc t => do
        let cd ← computeTriangleOutwardNormal (pts.getD t.1 V3.zero)
          (pts.getD t.2.1 V3.zero) (pts.getD t.2.2 V3.zero)
        if innerFacetValid pts t.1 t.2.1 t.2.2 cd.1 cd.2 then
          pure (acc ++ [(cd.1.neg, -cd.2)])
        else pure acc)
      []

/-- The i'th vertex of the box [bmin, bmax]: bit `axis` of i set selects
bmin(axis), clear selects bmax(axis). -/
def vertexOf (bmin bmax : V3) (i : ℕ) : V3 :=
  ⟨if i.testBit 0 then bmin.x else bmax.x,
   if i.testBit 1 then bmin.y else bmax.y,
   if i.testBit 2 then bmin.z else bmax.z⟩

/-- The four edges of the box along `axis` (the other two coordinates fixed at
a bmin/bmax value each): an edge contributes the crossing point, whose `axis`
coordinate is Intercept of the two fixed coordinates, exactly when the closer
endpoint has norm < 1 and the farther endpoint has norm > 1. -/
noncomputable def edgeCrossings (bmin bmax : V3) (axis : ℕ) : List V3 :=
  let f1 := (axis + 1) % 3
  let f2 := (axis + 2) % 3
  [bmin.get f1, bmax.get f1].flatMap (fun val1 =>
    [bmin.get f2, bmax.get f2].filterMap (fun val2 =>
      let ptCloser := ((V3.zero.set axis (bmin.get axis)).set f1 val1).set f2 val2
      let ptFarther := ((V3.zero.set axis (bmax.get axis)).set f1 val1).set f2 val2
      if ptCloser.norm < 1 ∧ 1 < ptFarther.norm then
        some (((V3.zero.set f1 val1).set f2 val2).set axis (Intercept val1 val2))
      else none))

/-- ComputeBoxEdgesAndSphereIntersection: all intersection points between the
edges of the box [bmin, bmax] (first orthant) and the unit sphere — the two
degenerate single-corner cases, then the box vertices lying on the sphere,
then the straddling-edge crossing points.  (The four DRAKE_ASSERT
preconditions are debug-only and are carried as theorem hypotheses.) -/
noncomputable def computeBoxEdgesAndSphereIntersection (bmin bmax : V3) : List V3 :=
  if bmin.norm = 1 then [bmin]
  else if bmax.norm = 1 then [bmax]
  else
    ((List.range 8).filterMap (fun i =>
      if (vertexOf bmin bmax i).norm = 1 then some (vertexOf bmin bmax i) else none))
    ++ (List.range 3).flatMap (edgeCrossings bmin bmax)

/-- internal::CalcBoxBinaryExpressionInOrthant (instantiated at
Scalar1 = symbolic::Expression, Scalar2 = symbolic::Variable): per axis, remap
the positive-orthant interval index into the full-axis index for orthant o and
build the Gray-code selection expression over that axis's binary variables.
Bv axis is the list of variable indices of B_vec[axis]. -/
noncomputable def calcBoxBinaryExpressionInOrthant (xi yi zi o : ℕ)
    (gc : List (List ℤ)) (Bv : ℕ → List ℕ) (N : ℕ) :
    SymExpr × SymExpr × SymExpr :=
  let idx : ℕ → ℕ := fun axis => match axis with | 0 => xi | 1 => yi | _ => zi
  let pickE : ℕ → SymExpr := fun axis =>
    pickBinaryExpressionGivenInterval
      (positiveAxisIntervalIndexToFullAxisIntervalIndex (idx axis) o axis N) gc
      ((Bv axis).map SymExpr.var)
  (pickE 0, pickE 1, pickE 2)

/-- orthant_c.sum() for the cell (xi, yi, zi) reflected into orthant o. -/
noncomputable def orthantCSum (xi yi zi o : ℕ) (gc : List (List ℤ))
    (Bv : ℕ → List ℕ) (N : ℕ) : SymExpr :=
  let t := calcBoxBinaryExpressionInOrthant xi yi zi o gc Bv N
  .add (.add t.1 t.2.1) t.2.2

/-- The constraints emitted for a grid cell whose box does not intersect the
unit sphere's surface: for each of the 8 orthants, orthant_c.sum() >= 1. -/
noncomputable def stateAConsList (gc : List (List ℤ)) (Bv : ℕ → List ℕ)
    (N xi yi zi : ℕ) : List Cons :=
  (List.range 8).map (fun o => Cons.le (SymExpr.c 1) (orthantCSum xi yi zi o gc Bv N))

/-- The constraints emitted for a grid cell touching the sphere at the unique
point u (box_min or box_max on the sphere): for each orthant, the activation-
gated constraints v = u, v.dot(v1) = 0, v.dot(v2) = 0, v.cross(v1) = v2. -/
noncomputable def stateBConsList (u : V3) (v v1 v2 : Var3) (gc : List (List ℤ))
    (Bv : ℕ → List ℕ) (N xi yi zi : ℕ) : List Cons :=
  (List.range 8).flatMap (fun o =>
    let orthant_u := flipVector u o
    let csum := orthantCSum xi yi zi o gc Bv N
    ((List.range 3).flatMap (fun i =>
      let vi : ℕ := match i with | 0 => v.1 | 1 => v.2.1 | _ => v.2.2
      [Cons.le (.sub (.var vi) (.c (orthant_u.get i))) (.smul 2 csum),
       Cons.le (.smul (-2) csum) (.sub (.var vi) (.c (orthant_u.get i)))])) ++
    [Cons.le (dotE orthant_u v1) csum,
     Cons.le (.neg csum) (dotE orthant_u v1),
     Cons.le (dotE orthant_u v2) csum,
     Cons.le (.neg csum) (dotE orthant_u v2)] ++
    ((List.range 3).flatMap (fun i =>
      let cr := crossE orthant_u v1
      let cri : SymExpr := match i with | 0 => cr.1 | 1 => cr.2.1 | _ => cr.2.2
      let v2i : ℕ := match i with | 0 => v2.1 | 1 => v2.2.1 | _ => v2.2.2
      [Cons.le (.sub cri (.var v2i)) (.smul 2 csum),
       Cons.le (.smul (-2) csum) (.sub cri (.var v2i))])))

/-- The constraints emitted for a grid cell with a general box/sphere
intersection region, given the half-space relaxation (normal, dval) and the
inner facets (rows (c, d) of A x <= b): per orthant — the activation-gated
facet cuts, the norm bound (only when the orthant index is even), the
orthogonality bands with v1 and v2, and the two cross-product band vector
constraints, with theta = arccos(dval). -/
noncomputable def stateCConsList (normal : V3) (dval : ℝ) (facets : List (V3 × ℝ))
    (v v1 v2 : Var3) (gc : List (List ℤ)) (Bv : ℕ → List ℕ) (N xi yi zi : ℕ) :
    List Cons :=
  let theta := Real.arccos dval
  (List.range 8).flatMap (fun o =>
    let orthant_normal := flipVector normal o
    let csum := orthantCSum xi yi zi o gc Bv N
    (facets.map (fun f =>
      let orthant_a := (flipVector (f.1.neg) o).neg
      Cons.le (.sub (dotE orthant_a v) (.c f.2)) (.smul (1 - f.2) csum))) ++
    (if o % 2 = 0 then [Cons.rangeRow orthant_normal (-1) 1 v] else []) ++
    (let sin_theta := Real.sin theta
     [Cons.le (dotE orthant_normal v1) (.add (.c sin_theta) csum),
      Cons.le (.sub (.c (-sin_theta)) csum) (dotE orthant_normal v1),
      Cons.le (dotE orthant_normal v2) (.add (.c sin_theta) csum),
      Cons.le (.sub (.c (-sin_theta)) csum) (dotE orthant_normal v2)]) ++
    (let cr := crossE orthant_normal v1
     let e0 : SymExpr := .sub (.var v2.1) cr.1
     let e1 : SymExpr := .sub (.var v2.2.1) cr.2.1
     let e2 : SymExpr := .sub (.var v2.2.2) cr.2.2
     let ub : SymExpr := .add (.c (2 * Real.sin (theta / 2))) (.smul 2 csum)
     let lb : SymExpr := .sub (.c (-(2 * Real.sin (theta / 2)))) (.smul 2 csum)
     [Cons.leVec [(e0, ub), (e1, ub), (e2, ub)],
      Cons.leVec [(lb, e0), (lb, e1), (lb, e2)]]))

open Classical in
/-- The body of the (xi, yi, zi) iteration of AddMcCormickVectorConstraints:
classify the cell's box against the unit sphere and emit the State A / B / C
constraint block (or fail on a DRAKE_DEMAND). -/
noncomputable def cellCons (socpSolve : List V3 → V3 × ℝ) (v v1 v2 : Var3)
    (Bv : ℕ → List ℕ) (gc : List (List ℤ)) (N xi yi zi : ℕ) :
    Except String (List Cons) :=
  let box_min : V3 := ⟨envelopeMinValue xi N, envelopeMinValue yi N, envelopeMinValue zi N⟩
  let box_max : V3 :=
    ⟨envelopeMinValue (xi + 1) N, envelopeMinValue (yi + 1) N, envelopeMinValue (zi + 1) N⟩
  let box_min_norm := box_min.norm
  let box_max_norm := box_max.norm
  if box_min_norm ≤ 1 + 2 * machineEps ∧ 1 - 2 * machineEps ≤ box_max_norm then
    if |box_min_norm - 1| < 2 * machineEps ∨ |box_max_norm - 1| < 2 * machineEps then
      let u := if |box_min_norm - 1| < 2 * machineEps
               then box_min.sdiv box_min_norm else box_max.sdiv box_max_norm
      .ok (stateBConsList u v v1 v2 gc Bv N xi yi zi)
    else
      let pts := computeBoxEdgesAndSphereIntersection box_min box_max
      if pts.length < 3 then .error ("DRAKE_DEMAND failed: pts.size() >= 3")
      else do
        let nd ← computeHalfSpaceRelaxationForBoxSphereIntersection socpSolve pts
        let facets ← computeInnerFacetsForBoxSphereIntersection pts
        .ok (stateCConsList nd.1 nd.2 facets v v1 v2 gc Bv N xi yi zi)
  else .ok (stateAConsList gc Bv N xi yi zi)

/-- AddMcCormickVectorConstraints: iterate the N^3 positive-orthant grid cells
in loop order and append every cell's constraint block to the program. -/
noncomputable def addMcCormickVectorConstraints (prog : Prog)
    (socpSolve : List V3 → V3 × ℝ) (v : Var3) (Bv : ℕ → List ℕ) (v1 v2 : Var3)
    (N : ℕ) (gc : List (List ℤ)) : Except String Prog := do
  let blocks ← ((List.range N).flatMap (fun xi =>
      (List.range N).flatMap (fun yi =>
        (List.range N).map (fun zi => (xi, yi, zi))))).mapM
    (fun cell => cellCons socpSolve v v1 v2 Bv gc N cell.1 cell.2.1 cell.2.2)
  .ok { prog with cons := prog.cons ++ blocks.flatten }

/-! ## Theorems -/

theorem except_ok_bind {ε α β : Type} (a : α) (f : α → Except ε β) :
    (Except.ok a : Except ε α) >>= f = f a := rfl

theorem except_error_bind {ε α β : Type} (e : ε) (f : α → Except ε β) :
    (Except.error e : Except ε α) >>= f = Except.error e := rfl

theorem V3.normSq_nonneg (a : V3) : 0 ≤ a.normSq := by
  have hx := mul_self_nonneg a.x
  have hy := mul_self_nonneg a.y
  have hz := mul_self_nonneg a.z
  unfold V3.normSq
  linarith

theorem V3.norm_eq_one_iff (a : V3) : a.norm = 1 ↔ a.normSq = 1 := Real.sqrt_eq_one

theorem V3.norm_lt_one_iff (a : V3) : a.norm < 1 ↔ a.normSq < 1 := by
  unfold V3.norm
  constructor
  · intro h
    have h0 := a.normSq_nonneg
    have := Real.sq_sqrt h0
    nlinarith [Real.sqrt_nonneg a.normSq]
  · intro h
    have h1 : Real.sqrt a.normSq < Real.sqrt 1 :=
      Real.sqrt_lt_sqrt a.normSq_nonneg h
    simpa using h1

theorem V3.one_lt_norm_iff (a : V3) : 1 < a.norm ↔ 1 < a.normSq := by
  unfold V3.norm
  constructor
  · intro h
    have h0 := a.normSq_nonneg
    have h2 := Real.sq_sqrt h0
    nlinarith [Real.sqrt_nonneg a.normSq]
  · intro h
    have h1 : Real.sqrt 1 < Real.sqrt a.normSq :=
      Real.sqrt_lt_sqrt (by norm_num) h
    simpa using h1

/-- C8: NewRotationMatrixVars creates a 3x3 matrix of continuous decision
variables and installs exactly the bounding-box constraint -1 <= R(i,j) <= 1
on every entry (the bounding box covers precisely the nine new entry
variables) and the single linear constraint -1 <= R(0,0)+R(1,1)+R(2,2) <= 3
on the trace, and no other constraint. -/
theorem newRotationMatrixVars_box_and_trace_only (prog : Prog) :
    (newRotationMatrixVars prog).2.nv = prog.nv + 9 ∧
    (newRotationMatrixVars prog).2.cons = prog.cons ++
      [Cons.bb (-1) 1 ((List.range 9).map (fun k => prog.nv + k)),
       Cons.rangeRow ⟨1, 1, 1⟩ (-1) 3
         ((newRotationMatrixVars prog).1 0 0, (newRotationMatrixVars prog).1 1 1,
          (newRotationMatrixVars prog).1 2 2)] ∧
    (List.range 9).map (fun k => prog.nv + k) =
      [(newRotationMatrixVars prog).1 0 0, (newRotationMatrixVars prog).1 1 0,
       (newRotationMatrixVars prog).1 2 0, (newRotationMatrixVars prog).1 0 1,
       (newRotationMatrixVars prog).1 1 1, (newRotationMatrixVars prog).1 2 1,
       (newRotationMatrixVars prog).1 0 2, (newRotationMatrixVars prog).1 1 2,
       (newRotationMatrixVars prog).1 2 2] := by
  refine ⟨rfl, rfl, ?_⟩
  simp only [newRotationMatrixVars, List.range_succ, List.range_zero, List.map_append,
    List.map_cons, List.map_nil, List.nil_append, List.cons_append, List.append_nil]

/-- C4: AddNotInSameOrOppositeOrthantConstraint adds its auxiliary variables
(two length-3 vectors t and s per column pair) and the constraints
sum(t) <= 2, sum(s) <= 2, -t(i) <= B(i,c0)+B(i,c1)-1 <= t(i),
-s(i) <= B(i,c0)-B(i,c1) <= s(i) for the three column pairs (0,1), (0,2),
(1,2) if and only if num_intervals_per_half_axis is a power of two; for any
other N it adds nothing (no auxiliary variables, no constraints) and raises
no error. -/
theorem addNotInSameOrOppositeOrthant_iff_power_of_two (prog : Prog)
    (B : ℕ → ℕ → ℕ) (N : ℕ) :
    let pairCons : ℕ → ℕ → ℕ → List Cons := fun b c0 c1 =>
      [Cons.le (.add (.add (.var b) (.var (b + 1))) (.var (b + 2))) (.c 2),
       Cons.le (.add (.add (.var (b + 3)) (.var (b + 4))) (.var (b + 5))) (.c 2),
       Cons.le (.sub (.add (.var (B 0 c0)) (.var (B 0 c1))) (.c 1)) (.var b),
       Cons.le (.neg (.var b)) (.sub (.add (.var (B 0 c0)) (.var (B 0 c1))) (.c 1)),
       Cons.le (.sub (.var (B 0 c0)) (.var (B 0 c1))) (.var (b + 3)),
       Cons.le (.neg (.var (b + 3))) (.sub (.var (B 0 c0)) (.var (B 0 c1))),
       Cons.le (.sub (.add (.var (B 1 c0)) (.var (B 1 c1))) (.c 1)) (.var (b + 1)),
       Cons.le (.neg (.var (b + 1))) (.sub (.add (.var (B 1 c0)) (.var (B 1 c1))) (.c 1)),
       Cons.le (.sub (.var (B 1 c0)) (.var (B 1 c1))) (.var (b + 4)),
       Cons.le (.neg (.var (b + 4))) (.sub (.var (B 1 c0)) (.var (B 1 c1))),
       Cons.le (.sub (.add (.var (B 2 c0)) (.var (B 2 c1))) (.c 1)) (.var (b + 2)),
       Cons.le (.neg (.var (b + 2))) (.sub (.add (.var (B 2 c0)) (.var (B 2 c1))) (.c 1)),
       Cons.le (.sub (.var (B 2 c0)) (.var (B 2 c1))) (.var (b + 5)),
       Cons.le (.neg (.var (b + 5))) (.sub (.var (B 2 c0)) (.var (B 2 c1)))]
    ((∃ k, N = 2 ^ k) →
      addNotInSameOrOppositeOrthantConstraint prog B N =
        { nv := prog.nv + 18,
          cons := prog.cons ++ (pairCons prog.nv 0 1 ++ pairCons (prog.nv + 6) 0 2 ++
            pairCons (prog.nv + 12) 1 2) }) ∧
    (¬ (∃ k, N = 2 ^ k) →
      addNotInSameOrOppositeOrthantConstraint prog B N = prog) := by
  intro pairCons
  constructor
  · rintro ⟨k, rfl⟩
    have hcond : (2 : ℕ) ^ k = 1 <<< ceilLog2 (2 ^ k) := by
      rw [Nat.one_shiftLeft, ceilLog2, Nat.clog_pow 2 k (by norm_num)]
    rw [addNotInSameOrOppositeOrthantConstraint, if_pos hcond]
    simp only [List.foldl, List.range_succ, List.range_zero, List.flatMap_append,
      List.flatMap_cons, List.flatMap_nil, List.nil_append, List.append_nil,
      List.append_assoc, List.cons_append]
    refine congrArg₂ Prog.mk (by omega) ?_
    simp only [pairCons, List.append_assoc, List.cons_append, List.nil_append]
    norm_num
  · intro hnp
    rw [addNotInSameOrOppositeOrthantConstraint, if_neg]
    intro hc
    refine hnp ⟨ceilLog2 N, ?_⟩
    rw [← Nat.one_shiftLeft]
    exact hc

/-- Witness for C4's theorem at the concrete inputs N = 4 (a power of two,
the constraint block is added) and N = 3 (not a power of two, the program is
returned unchanged). -/
theorem addNotInSameOrOppositeOrthant_witness :
    (addNotInSameOrOppositeOrthantConstraint ⟨0, []⟩ (fun i j => 100 + 3 * j + i) 4).nv
        = 18 ∧
    addNotInSameOrOppositeOrthantConstraint ⟨0, []⟩ (fun i j => 100 + 3 * j + i) 3
        = ⟨0, []⟩ := by
  constructor
  · have h := (addNotInSameOrOppositeOrthant_iff_power_of_two ⟨0, []⟩
      (fun i j => 100 + 3 * j + i) 4).1 ⟨2, by norm_num⟩
    rw [h]
  · exact (addNotInSameOrOppositeOrthant_iff_power_of_two ⟨0, []⟩
      (fun i j => 100 + 3 * j + i) 3).2 (by
      rintro ⟨k, hk⟩
      rcases Nat.lt_or_ge k 2 with h2 | h2
      · interval_cases k <;> omega
      · have h4 : (2 : ℕ) ^ 2 ≤ 2 ^ k := Nat.pow_le_pow_right (by norm_num) h2
        omega)

/-- C10 (counterexample): the DRAKE_ASSERT of PickBinaryExpressionGivenInterval
checks interval_idx <= gray_codes.rows(); at interval_idx equal to the row
count (here a 2-row, 1-column table and interval_idx = 2) the checked
precondition holds, yet the row read gray_codes(interval_idx, 0) is out of
bounds. -/
theorem pickBinaryExpression_assert_insufficient :
    pickBinaryExpressionGivenIntervalChecked (α := ℤ) 2 [[0], [1]] [0] =
      .error ("matrix access out of bounds") ∧
    (0 ≤ (2 : ℤ) ∧ (2 : ℤ) ≤ (([[0], [1]] : List (List ℤ)).length : ℤ)) ∧
    ([(0 : ℤ)].length = grayCodesCols [[0], [1]]) := by
  refine ⟨rfl, by norm_num, rfl⟩

/-- C10 (amended): the assertion-checked precondition of
PickBinaryExpressionGivenInterval does not make the row read in-bounds at
interval_idx = gray_codes.rows(); the strengthened precondition
0 <= interval_idx < gray_codes.rows() (with b.rows() = gray_codes.cols() and a
rectangular table) does: under it every element access performed by the
function succeeds and the function returns a value. -/
theorem pickBinaryExpression_strict_bound_in_bounds {α : Type}
    [Zero α] [One α] [Add α] [Sub α]
    (interval_idx : ℤ) (gray_codes : List (List ℤ)) (b : List α)
    (h0 : 0 ≤ interval_idx) (h1 : interval_idx < (gray_codes.length : ℤ))
    (hb : b.length = grayCodesCols gray_codes)
    (hrect : ∀ row ∈ gray_codes, row.length = grayCodesCols gray_codes) :
    ∃ val, pickBinaryExpressionGivenIntervalChecked interval_idx gray_codes b =
      .ok val := by
  rw [pickBinaryExpressionGivenIntervalChecked,
    if_neg (by push_neg; refine ⟨h0, ?_⟩; omega),
    if_neg (by push_neg; exact hb)]
  obtain ⟨row, hrow⟩ : ∃ row, gray_codes.get? interval_idx.toNat = some row := by
    refine List.get?_eq_get ?_ ▸ ⟨_, rfl⟩
    omega
  have hrowmem : row ∈ gray_codes := List.get?_mem hrow
  have hrlen : row.length = grayCodesCols gray_codes := hrect row hrowmem
  simp only [hrow]
  have key : ∀ (l : List ℕ), (∀ i ∈ l, i < grayCodesCols gray_codes) → ∀ acc : α,
      ∃ val, l.foldlM (fun ret i =>
        match row.get? i, b.get? i with
        | some g, some bi => Except.ok (ret + (if g ≠ 0 then 1 - bi else bi))
        | _, _ => (Except.error ("matrix access out of bounds") : Except String α))
        acc = Except.ok val := by
    intro l
    induction l with
    | nil => intro _ acc; exact ⟨acc, rfl⟩
    | cons hd tl ih =>
      intro hmem acc
      have hhd : hd < grayCodesCols gray_codes := hmem hd (List.mem_cons_self hd tl)
      obtain ⟨g, hg⟩ : ∃ g, row.get? hd = some g := by
        refine List.get?_eq_get ?_ ▸ ⟨_, rfl⟩
        omega
      obtain ⟨bi, hbi⟩ : ∃ bi, b.get? hd = some bi := by
        refine List.get?_eq_get ?_ ▸ ⟨_, rfl⟩
        omega
      obtain ⟨val, hval⟩ := ih (fun i hi => hmem i (List.mem_cons_of_mem hd hi))
        (acc + (if g ≠ 0 then 1 - bi else bi))
      refine ⟨val, ?_⟩
      rw [List.foldlM_cons, hg, hbi]
      simpa using hval
  exact key (List.range (grayCodesCols gray_codes))
    (fun i hi => List.mem_range.mp hi) 0

/-- Witness for C10's amended theorem at concrete inputs: a 2-row, 1-column
table with interval_idx = 1 yields a value. -/
theorem pickBinaryExpression_strict_bound_witness :
    ∃ val, pickBinaryExpressionGivenIntervalChecked (α := ℤ) 1 [[0], [1]] [0] =
      .ok val :=
  pickBinaryExpression_strict_bound_in_bounds 1 [[0], [1]] [0]
    (by norm_num) (by norm_num) (by rfl) (by decide)

theorem eval_foldl_add (σ : ℕ → ℝ) (f : ℕ → SymExpr) (l : List ℕ) (acc : SymExpr) :
    (l.foldl (fun r i => r + f i) acc).eval σ =
      l.foldl (fun r i => r + (f i).eval σ) (acc.eval σ) := by
  induction l generalizing acc with
  | nil => rfl
  | cons hd tl ih =>
    simp only [List.foldl_cons]
    rw [ih (acc + f hd)]
    rfl

theorem foldl_add_eq_sum (f : ℕ → ℝ) (l : List ℕ) (acc : ℝ) :
    l.foldl (fun r i => r + f i) acc = acc + (l.map f).sum := by
  induction l generalizing acc with
  | nil => simp
  | cons hd tl ih =>
    simp only [List.foldl_cons, List.map_cons, List.sum_cons]
    rw [ih (acc + f hd)]
    ring

theorem sum_map_indicator (p : ℕ → Bool) (l : List ℕ) :
    (l.map (fun i => if p i then (1 : ℝ) else 0)).sum = ((l.filter p).length : ℝ) := by
  induction l with
  | nil => simp
  | cons hd tl ih =>
    cases hp : p hd
    · simp [hp, ih]
    · simp only [List.map_cons, List.sum_cons, hp, if_true, List.filter_cons_of_pos,
        List.length_cons, ih]
      push_cast
      ring

theorem getD_map_range {α : Type} (f : ℕ → α) (dflt : α) (n i : ℕ) (h : i < n) :
    ((List.range n).map f).getD i dflt = f i := by
  rw [List.getD_eq_getElem?_getD, List.getElem?_map, List.getElem?_range h]
  rfl

theorem calculateReflectedGrayCodes_cols (d : ℕ) :
    grayCodesCols (calculateReflectedGrayCodes d) = d := by
  obtain ⟨m, hm⟩ : ∃ m, 2 ^ d = m + 1 :=
    ⟨2 ^ d - 1, by have := pow_pos (by norm_num : (0:ℕ) < 2) d; omega⟩
  rw [grayCodesCols, calculateReflectedGrayCodes, hm, List.range_succ_eq_map]
  simp

theorem calculateReflectedGrayCodes_entry (d k i : ℕ) (hk : k < 2 ^ d) (hi : i < d) :
    ((calculateReflectedGrayCodes d).getD k []).getD i 0 =
      if (grayCodeValue k).testBit i then (1 : ℤ) else 0 := by
  rw [calculateReflectedGrayCodes,
    getD_map_range _ _ _ _ hk, getD_map_range _ _ _ _ hi]

theorem grayCodeValue_lt_two_pow {d k : ℕ} (hk : k < 2 ^ d) :
    grayCodeValue k < 2 ^ d :=
  Nat.xor_lt_two_pow hk
    (lt_of_le_of_lt (by rw [Nat.shiftRight_eq_div_pow]; exact Nat.div_le_self k (2 ^ 1)) hk)

theorem grayCodeValue_injective : Function.Injective grayCodeValue := by
  intro a b hab
  have hM : ∀ M, a < 2 ^ M → b < 2 ^ M → a = b := by
    intro M haM hbM
    apply Nat.eq_of_testBit_eq
    have high : ∀ m, M ≤ m → a.testBit m = b.testBit m := by
      intro m hm
      have h2 : (2 : ℕ) ^ M ≤ 2 ^ m := Nat.pow_le_pow_right (by norm_num) hm
      rw [Nat.testBit_lt_two_pow (lt_of_lt_of_le haM h2),
        Nat.testBit_lt_two_pow (lt_of_lt_of_le hbM h2)]
    have step : ∀ m, a.testBit (m + 1) = b.testBit (m + 1) →
        a.testBit m = b.testBit m := by
      intro m hm1
      have ha := congrArg (fun x => Nat.testBit x m) hab
      simp only [grayCodeValue, Nat.testBit_xor, Nat.testBit_shiftRight] at ha
      rw [Nat.add_comm 1 m] at ha
      rw [hm1] at ha
      cases hb1 : b.testBit (m + 1) <;> rw [hb1] at ha <;>
        cases hbm : b.testBit m <;> rw [hbm] at ha <;> simp_all
    have down : ∀ j, a.testBit (M - j) = b.testBit (M - j) := by
      intro j
      induction j with
      | zero => exact high M (by omega)
      | succ n ihn =>
        by_cases hc : n < M
        · have heq : M - (n + 1) + 1 = M - n := by omega
          apply step
          rw [heq]
          exact ihn
        · have heq : M - (n + 1) = M - n := by omega
          rw [heq]
          exact ihn
    intro i
    rcases le_or_lt M i with h | h
    · exact high i h
    · have := down (M - i)
      rwa [Nat.sub_sub_self (le_of_lt h)] at this
  exact hM (a + b + 1)
    (lt_of_lt_of_le (Nat.lt_two_pow a) (Nat.pow_le_pow_right (by norm_num) (by omega)))
    (lt_of_lt_of_le (Nat.lt_two_pow b) (Nat.pow_le_pow_right (by norm_num) (by omega)))

/-- C3: for the reflected-Gray-code table G with d digits, a valid row index
k, and the 0/1 assignment of the binary vector b given by row j of G, the
expression built by PickBinaryExpressionGivenInterval(k, G, b) evaluates to 0
when j = k (the assignment encodes interval k) and to a value >= 1 when b is
any other row of the table. -/
theorem pickBinaryExpression_gray_row_selection (d k j : ℕ)
    (hk : k < 2 ^ d) (hj : j < 2 ^ d) :
    (k = j →
      SymExpr.eval (fun m => if (grayCodeValue j).testBit m then 1 else 0)
        (pickBinaryExpressionGivenInterval (α := SymExpr) k
          (calculateReflectedGrayCodes d) ((List.range d).map SymExpr.var)) = 0) ∧
    (k ≠ j →
      1 ≤ SymExpr.eval (fun m => if (grayCodeValue j).testBit m then 1 else 0)
        (pickBinaryExpressionGivenInterval (α := SymExpr) k
          (calculateReflectedGrayCodes d) ((List.range d).map SymExpr.var))) := by
  set σ : ℕ → ℝ := fun m => if (grayCodeValue j).testBit m then 1 else 0 with hσ
  have hE : SymExpr.eval σ
      (pickBinaryExpressionGivenInterval (α := SymExpr) k
        (calculateReflectedGrayCodes d) ((List.range d).map SymExpr.var)) =
      (((List.range d).filter
        (fun i => (grayCodeValue k).testBit i != (grayCodeValue j).testBit i)).length : ℝ) := by
    rw [pickBinaryExpressionGivenInterval, calculateReflectedGrayCodes_cols]
    rw [eval_foldl_add σ (fun i =>
      if ((calculateReflectedGrayCodes d).getD k []).getD i 0 ≠ 0
      then 1 - ((List.range d).map SymExpr.var).getD i 0
      else ((List.range d).map SymExpr.var).getD i 0)]
    rw [foldl_add_eq_sum]
    have h0 : SymExpr.eval σ 0 = 0 := rfl
    rw [h0, zero_add]
    rw [← sum_map_indicator (fun i =>
      (grayCodeValue k).testBit i != (grayCodeValue j).testBit i) (List.range d)]
    congr 1
    apply List.map_congr_left
    intro i hi
    have hid : i < d := List.mem_range.mp hi
    rw [calculateReflectedGrayCodes_entry d k i hk hid]
    rw [getD_map_range SymExpr.var 0 d i hid]
    cases hki : (grayCodeValue k).testBit i <;>
      cases hji : (grayCodeValue j).testBit i <;>
        simp [SymExpr.eval, hσ, hki, hji]
  constructor
  · rintro rfl
    rw [hE]
    simp
  · intro hkj
    rw [hE]
    have hne : grayCodeValue k ≠ grayCodeValue j :=
      fun h => hkj (grayCodeValue_injective h)
    obtain ⟨i, hid, hbit⟩ : ∃ i, i < d ∧
        (grayCodeValue k).testBit i ≠ (grayCodeValue j).testBit i := by
      by_contra hall
      push_neg at hall
      apply hne
      apply Nat.eq_of_testBit_eq
      intro i
      rcases lt_or_le i d with h | h
      · exact hall i h
      · have h2 : (2 : ℕ) ^ d ≤ 2 ^ i := Nat.pow_le_pow_right (by norm_num) h
        rw [Nat.testBit_lt_two_pow (lt_of_lt_of_le (grayCodeValue_lt_two_pow hk) h2),
          Nat.testBit_lt_two_pow (lt_of_lt_of_le (grayCodeValue_lt_two_pow hj) h2)]
    have hmem : i ∈ (List.range d).filter
        (fun i => (grayCodeValue k).testBit i != (grayCodeValue j).testBit i) := by
      apply List.mem_filter.mpr
      exact ⟨List.mem_range.mpr hid, by simpa using hbit⟩
    have hlen : 1 ≤ ((List.range d).filter
        (fun i => (grayCodeValue k).testBit i != (grayCodeValue j).testBit i)).length :=
      List.length_pos.mpr (List.ne_nil_of_mem hmem)
    exact_mod_cast hlen

/-- Witness for C3's theorem at d = 2, k = 1, j = 3 (also exercising k = j at
k = j = 1). -/
theorem pickBinaryExpression_gray_row_selection_witness :
    (SymExpr.eval (fun m => if (grayCodeValue 1).testBit m then 1 else 0)
        (pickBinaryExpressionGivenInterval (α := SymExpr) 1
          (calculateReflectedGrayCodes 2) ((List.range 2).map SymExpr.var)) = 0) ∧
    (1 ≤ SymExpr.eval (fun m => if (grayCodeValue 3).testBit m then 1 else 0)
        (pickBinaryExpressionGivenInterval (α := SymExpr) 1
          (calculateReflectedGrayCodes 2) ((List.range 2).map SymExpr.var))) :=
  ⟨(pickBinaryExpression_gray_row_selection 2 1 1 (by norm_num) (by norm_num)).1 rfl,
   (pickBinaryExpression_gray_row_selection 2 1 3 (by norm_num) (by norm_num)).2
     (by norm_num)⟩

theorem one_le_sqrt_of_one_le {x : ℝ} (h : 1 ≤ x) : 1 ≤ Real.sqrt x :=
  calc (1 : ℝ) = Real.sqrt 1 := Real.sqrt_one.symm
  _ ≤ Real.sqrt x := Real.sqrt_le_sqrt h

/-- Case analysis of computeTriangleOutwardNormal for inputs in the first
orthant: throw when the cross norm is below 1e-3; otherwise return the
(possibly sign-flipped) normalized cross product together with p0.dot n when
it is componentwise non-negative, and fail the final DRAKE_DEMAND otherwise. -/
theorem computeTriangleOutwardNormal_cases (p0 p1 p2 : V3)
    (h0 : p0.Nonneg) (h1 : p1.Nonneg) (h2 : p2.Nonneg) :
    (((p2.sub p0).cross (p1.sub p0)).norm < 1 / 1000 →
      computeTriangleOutwardNormal p0 p1 p2 =
        .error ("The points are almost colinear.")) ∧
    (¬ (((p2.sub p0).cross (p1.sub p0)).norm < 1 / 1000) →
      ((if (((p2.sub p0).cross (p1.sub p0)).sdiv
            (((p2.sub p0).cross (p1.sub p0)).norm)).sum < 0
        then (((p2.sub p0).cross (p1.sub p0)).sdiv
            (((p2.sub p0).cross (p1.sub p0)).norm)).neg
        else ((p2.sub p0).cross (p1.sub p0)).sdiv
            (((p2.sub p0).cross (p1.sub p0)).norm)).Nonneg →
        computeTriangleOutwardNormal p0 p1 p2 =
          .ok (if (((p2.sub p0).cross (p1.sub p0)).sdiv
                (((p2.sub p0).cross (p1.sub p0)).norm)).sum < 0
            then (((p2.sub p0).cross (p1.sub p0)).sdiv
                (((p2.sub p0).cross (p1.sub p0)).norm)).neg
            else ((p2.sub p0).cross (p1.sub p0)).sdiv
                (((p2.sub p0).cross (p1.sub p0)).norm),
            p0.dot (if (((p2.sub p0).cross (p1.sub p0)).sdiv
                (((p2.sub p0).cross (p1.sub p0)).norm)).sum < 0
            then (((p2.sub p0).cross (p1.sub p0)).sdiv
                (((p2.sub p0).cross (p1.sub p0)).norm)).neg
            else ((p2.sub p0).cross (p1.sub p0)).sdiv
                (((p2.sub p0).cross (p1.sub p0)).norm)))) ∧
      (¬ (if (((p2.sub p0).cross (p1.sub p0)).sdiv
            (((p2.sub p0).cross (p1.sub p0)).norm)).sum < 0
          then (((p2.sub p0).cross (p1.sub p0)).sdiv
            (((p2.sub p0).cross (p1.sub p0)).norm)).neg
          else ((p2.sub p0).cross (p1.sub p0)).sdiv
            (((p2.sub p0).cross (p1.sub p0)).norm)).Nonneg →
        computeTriangleOutwardNormal p0 p1 p2 =
          .error ("DRAKE_DEMAND failed: normal componentwise nonnegative"))) := by
  constructor
  · intro hlt
    simp only [computeTriangleOutwardNormal]
    rw [if_neg (not_not_intro ⟨h0, h1, h2⟩), if_pos hlt]
  · intro hge
    constructor
    · intro hnn
      simp only [computeTriangleOutwardNormal]
      rw [if_neg (not_not_intro ⟨h0, h1, h2⟩), if_neg hge,
        if_neg (not_not_intro hnn)]
    · intro hnn
      simp only [computeTriangleOutwardNormal]
      rw [if_neg (not_not_intro ⟨h0, h1, h2⟩), if_neg hge, if_pos hnn]

/-- C6 (counterexample): on the non-negative-orthant inputs p0 = (0,0,0),
p1 = (1,1,0), p2 = (1,1,4) the cross product is (-4, 4, 0), its norm sqrt 32
is not below 1e-3, the sign-flip test (sum < 0) does not fire, and the
function fails its final componentwise-nonnegativity invariant check instead
of returning the normalized cross product — so the claim's dichotomy
(return the flipped normal, or throw only when the cross norm is below 1e-3)
is false. -/
theorem computeTriangleOutwardNormal_demand_failure :
    computeTriangleOutwardNormal ⟨0, 0, 0⟩ ⟨1, 1, 0⟩ ⟨1, 1, 4⟩ =
      .error ("DRAKE_DEMAND failed: normal componentwise nonnegative") ∧
    ¬ (((V3.mk 1 1 4).sub ⟨0, 0, 0⟩).cross ((V3.mk 1 1 0).sub ⟨0, 0, 0⟩)).norm
        < 1 / 1000 := by
  have hcross : ((V3.mk 1 1 4).sub ⟨0, 0, 0⟩).cross ((V3.mk 1 1 0).sub ⟨0, 0, 0⟩) =
      ⟨-4, 4, 0⟩ := by
    simp only [V3.sub, V3.cross, V3.mk.injEq]
    norm_num
  have hnorm : (V3.mk (-4) 4 0).norm = Real.sqrt 32 := by
    rw [V3.norm]
    norm_num [V3.normSq]
  have hsqrtpos : (0 : ℝ) < Real.sqrt 32 := Real.sqrt_pos.mpr (by norm_num)
  have hge : ¬ (((V3.mk 1 1 4).sub ⟨0, 0, 0⟩).cross
      ((V3.mk 1 1 0).sub ⟨0, 0, 0⟩)).norm < 1 / 1000 := by
    rw [hcross, hnorm]
    push_neg
    calc (1 : ℝ) / 1000 ≤ 1 := by norm_num
    _ ≤ Real.sqrt 32 := one_le_sqrt_of_one_le (by norm_num)
  refine ⟨?_, hge⟩
  have hsum : ¬ (((V3.mk (-4) 4 0).sdiv (Real.sqrt 32)).sum < 0) := by
    have : ((V3.mk (-4) 4 0).sdiv (Real.sqrt 32)).sum = 0 := by
      simp only [V3.sdiv, V3.sum]
      ring
    rw [this]
    norm_num
  have hnn : ¬ (if ((((V3.mk 1 1 4).sub ⟨0, 0, 0⟩).cross
        ((V3.mk 1 1 0).sub ⟨0, 0, 0⟩)).sdiv
        ((((V3.mk 1 1 4).sub ⟨0, 0, 0⟩).cross
        ((V3.mk 1 1 0).sub ⟨0, 0, 0⟩)).norm)).sum < 0
      then ((((V3.mk 1 1 4).sub ⟨0, 0, 0⟩).cross
        ((V3.mk 1 1 0).sub ⟨0, 0, 0⟩)).sdiv
        ((((V3.mk 1 1 4).sub ⟨0, 0, 0⟩).cross
        ((V3.mk 1 1 0).sub ⟨0, 0, 0⟩)).norm)).neg
      else (((V3.mk 1 1 4).sub ⟨0, 0, 0⟩).cross
        ((V3.mk 1 1 0).sub ⟨0, 0, 0⟩)).sdiv
        ((((V3.mk 1 1 4).sub ⟨0, 0, 0⟩).cross
        ((V3.mk 1 1 0).sub ⟨0, 0, 0⟩)).norm)).Nonneg := by
    rw [hcross, hnorm, if_neg hsum]
    rintro ⟨hx, -, -⟩
    simp only [V3.sdiv] at hx
    have : (-4 : ℝ) / Real.sqrt 32 < 0 := div_neg_of_neg_of_pos (by norm_num) hsqrtpos
    linarith
  exact ((computeTriangleOutwardNormal_cases ⟨0, 0, 0⟩ ⟨1, 1, 0⟩ ⟨1, 1, 4⟩
    ⟨le_refl 0, le_refl 0, le_refl 0⟩
    ⟨by norm_num, by norm_num, by norm_num⟩
    ⟨by norm_num, by norm_num, by norm_num⟩).2 hge).2 hnn

/-- C6 (amended): for inputs in the non-negative orthant, if the cross-product
norm is below 1e-3 the function throws; otherwise, writing n for the
normalized cross product with its sign flipped when the component sum is
negative — exactly the claim's n — the function returns (n, p0.dot n) when n
is componentwise non-negative, and fails its final invariant check (an error,
not a return) when n still has a negative component.  On the inputs (1,0,0),
(0,1,0), (0,0,1) it returns n = (1/sqrt 3, 1/sqrt 3, 1/sqrt 3) and
d = 1/sqrt 3. -/
theorem computeTriangleOutwardNormal_amended (p0 p1 p2 : V3)
    (h0 : p0.Nonneg) (h1 : p1.Nonneg) (h2 : p2.Nonneg) :
    ((((p2.sub p0).cross (p1.sub p0)).norm < 1 / 1000 →
      computeTriangleOutwardNormal p0 p1 p2 =
        .error ("The points are almost colinear.")) ∧
     (¬ (((p2.sub p0).cross (p1.sub p0)).norm < 1 / 1000) →
      ((if (((p2.sub p0).cross (p1.sub p0)).sdiv
            (((p2.sub p0).cross (p1.sub p0)).norm)).sum < 0
        then (((p2.sub p0).cross (p1.sub p0)).sdiv
            (((p2.sub p0).cross (p1.sub p0)).norm)).neg
        else ((p2.sub p0).cross (p1.sub p0)).sdiv
            (((p2.sub p0).cross (p1.sub p0)).norm)).Nonneg →
        computeTriangleOutwardNormal p0 p1 p2 =
          .ok (if (((p2.sub p0).cross (p1.sub p0)).sdiv
                (((p2.sub p0).cross (p1.sub p0)).norm)).sum < 0
            then (((p2.sub p0).cross (p1.sub p0)).sdiv
                (((p2.sub p0).cross (p1.sub p0)).norm)).neg
            else ((p2.sub p0).cross (p1.sub p0)).sdiv
                (((p2.sub p0).cross (p1.sub p0)).norm),
            p0.dot (if (((p2.sub p0).cross (p1.sub p0)).sdiv
                (((p2.sub p0).cross (p1.sub p0)).norm)).sum < 0
            then (((p2.sub p0).cross (p1.sub p0)).sdiv
                (((p2.sub p0).cross (p1.sub p0)).norm)).neg
            else ((p2.sub p0).cross (p1.sub p0)).sdiv
                (((p2.sub p0).cross (p1.sub p0)).norm)))) ∧
       (¬ (if (((p2.sub p0).cross (p1.sub p0)).sdiv
            (((p2.sub p0).cross (p1.sub p0)).norm)).sum < 0
          then (((p2.sub p0).cross (p1.sub p0)).sdiv
            (((p2.sub p0).cross (p1.sub p0)).norm)).neg
          else ((p2.sub p0).cross (p1.sub p0)).sdiv
            (((p2.sub p0).cross (p1.sub p0)).norm)).Nonneg →
        computeTriangleOutwardNormal p0 p1 p2 =
          .error ("DRAKE_DEMAND failed: normal componentwise nonnegative")))) ∧
    computeTriangleOutwardNormal ⟨1, 0, 0⟩ ⟨0, 1, 0⟩ ⟨0, 0, 1⟩ =
      .ok (⟨1 / Real.sqrt 3, 1 / Real.sqrt 3, 1 / Real.sqrt 3⟩, 1 / Real.sqrt 3) := by
  refine ⟨computeTriangleOutwardNormal_cases p0 p1 p2 h0 h1 h2, ?_⟩
  have hcross : ((V3.mk 0 0 1).sub ⟨1, 0, 0⟩).cross ((V3.mk 0 1 0).sub ⟨1, 0, 0⟩) =
      ⟨-1, -1, -1⟩ := by
    simp only [V3.sub, V3.cross, V3.mk.injEq]
    norm_num
  have hnorm : (V3.mk (-1) (-1) (-1)).norm = Real.sqrt 3 := by
    rw [V3.norm]
    norm_num [V3.normSq]
  have hs3 : (0 : ℝ) < Real.sqrt 3 := Real.sqrt_pos.mpr (by norm_num)
  have hge : ¬ (((V3.mk 0 0 1).sub ⟨1, 0, 0⟩).cross
      ((V3.mk 0 1 0).sub ⟨1, 0, 0⟩)).norm < 1 / 1000 := by
    rw [hcross, hnorm]
    push_neg
    calc (1 : ℝ) / 1000 ≤ 1 := by norm_num
    _ ≤ Real.sqrt 3 := one_le_sqrt_of_one_le (by norm_num)
  have hsum : ((V3.mk (-1) (-1) (-1)).sdiv (Real.sqrt 3)).sum < 0 := by
    have h : ((V3.mk (-1) (-1) (-1)).sdiv (Real.sqrt 3)).sum = -(3 / Real.sqrt 3) := by
      simp only [V3.sdiv, V3.sum]
      ring
    rw [h]
    have : (0 : ℝ) < 3 / Real.sqrt 3 := by positivity
    linarith
  have hneg : ((V3.mk (-1) (-1) (-1)).sdiv (Real.sqrt 3)).neg =
      ⟨1 / Real.sqrt 3, 1 / Real.sqrt 3, 1 / Real.sqrt 3⟩ := by
    simp only [V3.sdiv, V3.neg, V3.mk.injEq]
    refine ⟨by ring, by ring, by ring⟩
  have hif : (if ((((V3.mk 0 0 1).sub ⟨1, 0, 0⟩).cross
        ((V3.mk 0 1 0).sub ⟨1, 0, 0⟩)).sdiv
        ((((V3.mk 0 0 1).sub ⟨1, 0, 0⟩).cross
        ((V3.mk 0 1 0).sub ⟨1, 0, 0⟩)).norm)).sum < 0
      then ((((V3.mk 0 0 1).sub ⟨1, 0, 0⟩).cross
        ((V3.mk 0 1 0).sub ⟨1, 0, 0⟩)).sdiv
        ((((V3.mk 0 0 1).sub ⟨1, 0, 0⟩).cross
        ((V3.mk 0 1 0).sub ⟨1, 0, 0⟩)).norm)).neg
      else (((V3.mk 0 0 1).sub ⟨1, 0, 0⟩).cross
        ((V3.mk 0 1 0).sub ⟨1, 0, 0⟩)).sdiv
        ((((V3.mk 0 0 1).sub ⟨1, 0, 0⟩).cross
        ((V3.mk 0 1 0).sub ⟨1, 0, 0⟩)).norm)) =
      ⟨1 / Real.sqrt 3, 1 / Real.sqrt 3, 1 / Real.sqrt 3⟩ := by
    rw [hcross, hnorm, if_pos hsum, hneg]
  have hnn : (0 : ℝ) ≤ 1 / Real.sqrt 3 := by positivity
  have h := ((computeTriangleOutwardNormal_cases ⟨1, 0, 0⟩ ⟨0, 1, 0⟩ ⟨0, 0, 1⟩
    ⟨by norm_num, by norm_num, by norm_num⟩
    ⟨by norm_num, by norm_num, by norm_num⟩
    ⟨by norm_num, by norm_num, by norm_num⟩).2 hge).1
    (by rw [hif]; exact ⟨hnn, hnn, hnn⟩)
  rw [hif] at h
  rw [h]
  have hdot : (V3.mk 1 0 0).dot ⟨1 / Real.sqrt 3, 1 / Real.sqrt 3, 1 / Real.sqrt 3⟩ =
      1 / Real.sqrt 3 := by
    simp only [V3.dot]
    ring
  rw [hdot]

/-- Witness for C6's amended theorem at the concrete non-negative inputs
(1,0,0), (0,1,0), (0,0,1). -/
theorem computeTriangleOutwardNormal_amended_witness :
    computeTriangleOutwardNormal ⟨1, 0, 0⟩ ⟨0, 1, 0⟩ ⟨0, 0, 1⟩ =
      .ok (⟨1 / Real.sqrt 3, 1 / Real.sqrt 3, 1 / Real.sqrt 3⟩, 1 / Real.sqrt 3) :=
  (computeTriangleOutwardNormal_amended ⟨1, 0, 0⟩ ⟨0, 1, 0⟩ ⟨0, 0, 1⟩
    ⟨by norm_num, by norm_num, by norm_num⟩
    ⟨by norm_num, by norm_num, by norm_num⟩
    ⟨by norm_num, by norm_num, by norm_num⟩).2

/-- Evaluation of the box-edge/sphere intersection on the positive unit cube:
the vertex loop finds the three unit vectors (at i = 3, 5, 6) and no edge of
this box straddles the sphere. -/
theorem computeBoxEdges_unitCube :
    computeBoxEdgesAndSphereIntersection ⟨0, 0, 0⟩ ⟨1, 1, 1⟩ =
      [⟨0, 0, 1⟩, ⟨0, 1, 0⟩, ⟨1, 0, 0⟩] := by
  rw [computeBoxEdgesAndSphereIntersection]
  norm_num +decide [V3.norm_eq_one_iff, V3.norm_lt_one_iff,
    V3.one_lt_norm_iff, V3.normSq, vertexOf,
    edgeCrossings, V3.get, V3.set,
    V3.zero, List.range_succ]
  norm_num +decide [List.filterMap_cons]

/-- Membership inversion for the per-axis edge loop: a point is contributed by
an edge along `axis` exactly when, for some choice of the two fixed
coordinates among the bmin/bmax values, the closer endpoint lies strictly
inside the unit sphere and the farther endpoint strictly outside; the point's
`axis` coordinate is then Intercept of the two fixed coordinates. -/
theorem edgeCrossings_mem_iff (bmin bmax : V3) (axis : ℕ) (p : V3) :
    p ∈ edgeCrossings bmin bmax axis ↔
    ∃ val1 ∈ [bmin.get ((axis + 1) % 3), bmax.get ((axis + 1) % 3)],
      ∃ val2 ∈ [bmin.get ((axis + 2) % 3), bmax.get ((axis + 2) % 3)],
        ((((V3.zero.set axis (bmin.get axis)).set ((axis + 1) % 3) val1).set
            ((axis + 2) % 3) val2).norm < 1 ∧
         1 < (((V3.zero.set axis (bmax.get axis)).set ((axis + 1) % 3) val1).set
            ((axis + 2) % 3) val2).norm) ∧
        p = ((V3.zero.set ((axis + 1) % 3) val1).set ((axis + 2) % 3) val2).set axis
            (Intercept val1 val2) := by
  simp only [edgeCrossings, List.mem_flatMap, List.mem_filterMap]
  constructor
  · rintro ⟨val1, h1, val2, h2, heq⟩
    refine ⟨val1, h1, val2, h2, ?_⟩
    split_ifs at heq with hc
    exact ⟨hc, (Option.some_inj.mp heq).symm⟩
  · rintro ⟨val1, h1, val2, h2, hc, rfl⟩
    exact ⟨val1, h1, val2, h2, by rw [if_pos hc]⟩

/-- C7: ComputeBoxEdgesAndSphereIntersection on the box (0,0,0)-(1,1,1)
returns exactly the three points (1,0,0), (0,1,0), (0,0,1); and in general an
edge contributes a crossing point — whose coordinate along the edge's axis is
sqrt(1 - x^2 - y^2) of the edge's two fixed coordinates — exactly when one
endpoint of the edge is strictly inside the unit sphere and the other
strictly outside. -/
theorem computeBoxEdges_unitCube_and_straddle_only :
    (computeBoxEdgesAndSphereIntersection ⟨0, 0, 0⟩ ⟨1, 1, 1⟩).length = 3 ∧
    (∀ p, p ∈ computeBoxEdgesAndSphereIntersection ⟨0, 0, 0⟩ ⟨1, 1, 1⟩ ↔
      (p = ⟨1, 0, 0⟩ ∨ p = ⟨0, 1, 0⟩ ∨ p = ⟨0, 0, 1⟩)) ∧
    (∀ bmin bmax : V3, ∀ axis : ℕ, ∀ p : V3,
      p ∈ edgeCrossings bmin bmax axis ↔
      ∃ val1 ∈ [bmin.get ((axis + 1) % 3), bmax.get ((axis + 1) % 3)],
        ∃ val2 ∈ [bmin.get ((axis + 2) % 3), bmax.get ((axis + 2) % 3)],
          ((((V3.zero.set axis (bmin.get axis)).set ((axis + 1) % 3) val1).set
              ((axis + 2) % 3) val2).norm < 1 ∧
           1 < (((V3.zero.set axis (bmax.get axis)).set ((axis + 1) % 3) val1).set
              ((axis + 2) % 3) val2).norm) ∧
          p = ((V3.zero.set ((axis + 1) % 3) val1).set ((axis + 2) % 3) val2).set axis
              (Intercept val1 val2)) := by
  refine ⟨by simp [computeBoxEdges_unitCube], ?_, edgeCrossings_mem_iff⟩
  intro p
  rw [computeBoxEdges_unitCube]
  simp only [List.mem_cons, List.not_mem_nil, or_false]
  tauto

theorem intercept_on_sphere_and_bounds (mA MA v1 v2 : ℝ) (hA0 : 0 ≤ mA)
    (hMA0 : 0 ≤ MA)
    (hclose : mA * mA + v1 * v1 + v2 * v2 < 1)
    (hfar : 1 < MA * MA + v1 * v1 + v2 * v2) :
    Intercept v1 v2 * Intercept v1 v2 + v1 * v1 + v2 * v2 = 1 ∧
    mA ≤ Intercept v1 v2 ∧ Intercept v1 v2 ≤ MA := by
  have hs0 : 0 ≤ 1 - v1 * v1 - v2 * v2 := by nlinarith [mul_self_nonneg mA]
  have hI : Intercept v1 v2 * Intercept v1 v2 = 1 - v1 * v1 - v2 * v2 :=
    Real.mul_self_sqrt hs0
  refine ⟨by rw [hI]; ring, ?_, ?_⟩
  · have h1 : mA * mA ≤ 1 - v1 * v1 - v2 * v2 := by nlinarith
    calc mA = Real.sqrt (mA * mA) := (Real.sqrt_mul_self hA0).symm
    _ ≤ Intercept v1 v2 := Real.sqrt_le_sqrt h1
  · have h2 : 1 - v1 * v1 - v2 * v2 ≤ MA * MA := by nlinarith
    calc Intercept v1 v2 ≤ Real.sqrt (MA * MA) := Real.sqrt_le_sqrt h2
    _ = MA := Real.sqrt_mul_self hMA0

/-- C9: for a box with bmin componentwise nonnegative, bmax componentwise
strictly larger, and norm(bmin) <= 1 <= norm(bmax), every point returned by
ComputeBoxEdgesAndSphereIntersection lies exactly on the unit sphere and
inside the box, componentwise between bmin and bmax. -/
theorem computeBoxEdges_on_sphere_in_box (bmin bmax : V3)
    (hnn : bmin.Nonneg)
    (hx : bmin.x < bmax.x) (hy : bmin.y < bmax.y) (hz : bmin.z < bmax.z)
    (hlo : bmin.norm ≤ 1) (hhi : 1 ≤ bmax.norm) :
    ∀ p ∈ computeBoxEdgesAndSphereIntersection bmin bmax,
      p.norm = 1 ∧
      bmin.x ≤ p.x ∧ p.x ≤ bmax.x ∧ bmin.y ≤ p.y ∧ p.y ≤ bmax.y ∧
      bmin.z ≤ p.z ∧ p.z ≤ bmax.z := by
  intro p hp
  rw [computeBoxEdgesAndSphereIntersection] at hp
  split_ifs at hp with h1 h2
  · simp only [List.mem_singleton] at hp
    subst hp
    exact ⟨h1, le_refl _, le_of_lt hx, le_refl _, le_of_lt hy, le_refl _, le_of_lt hz⟩
  · simp only [List.mem_singleton] at hp
    subst hp
    exact ⟨h2, le_of_lt hx, le_refl _, le_of_lt hy, le_refl _, le_of_lt hz, le_refl _⟩
  · rcases List.mem_append.mp hp with hv | he
    · obtain ⟨i, _, heq⟩ := List.mem_filterMap.mp hv
      split_ifs at heq with hcnorm
      obtain rfl := Option.some_inj.mp heq
      refine ⟨hcnorm, ?_, ?_, ?_, ?_, ?_, ?_⟩ <;> simp only [vertexOf] <;>
        split_ifs <;> first | exact le_refl _ | exact le_of_lt hx |
          exact le_of_lt hy | exact le_of_lt hz
    · obtain ⟨axis, haxis, hpe⟩ := List.mem_flatMap.mp he
      have haxis3 : axis < 3 := List.mem_range.mp haxis
      obtain ⟨val1, h1mem, val2, h2mem, ⟨hclose, hfar⟩, rfl⟩ :=
        (edgeCrossings_mem_iff bmin bmax axis _).mp hpe
      obtain ⟨hnx, hny, hnz⟩ := hnn
      interval_cases axis
      · -- axis = 0: fixed coordinates are y (index 1) and z (index 2)
        norm_num [V3.set, V3.zero, V3.get, List.mem_cons] at h1mem h2mem hclose hfar ⊢
        rw [V3.norm_lt_one_iff] at hclose
        rw [V3.one_lt_norm_iff] at hfar
        simp only [V3.normSq] at hclose hfar
        obtain ⟨hsph, hIlo, hIhi⟩ := intercept_on_sphere_and_bounds bmin.x bmax.x
          val1 val2 hnx (le_of_lt (lt_of_le_of_lt hnx hx)) hclose hfar
        have hv1 : bmin.y ≤ val1 ∧ val1 ≤ bmax.y := by
          rcases h1mem with rfl | rfl
          · exact ⟨le_refl _, le_of_lt hy⟩
          · exact ⟨le_of_lt hy, le_refl _⟩
        have hv2 : bmin.z ≤ val2 ∧ val2 ≤ bmax.z := by
          rcases h2mem with rfl | rfl
          · exact ⟨le_refl _, le_of_lt hz⟩
          · exact ⟨le_of_lt hz, le_refl _⟩
        refine ⟨?_, hIlo, hIhi, hv1.1, hv1.2, hv2.1, hv2.2⟩
        rw [V3.norm_eq_one_iff]
        simp only [V3.normSq]
        linarith [hsph]
      · -- axis = 1: fixed coordinates are z (index 2) and x (index 0)
        norm_num [V3.set, V3.zero, V3.get, List.mem_cons] at h1mem h2mem hclose hfar ⊢
        rw [V3.norm_lt_one_iff] at hclose
        rw [V3.one_lt_norm_iff] at hfar
        simp only [V3.normSq] at hclose hfar
        obtain ⟨hsph, hIlo, hIhi⟩ := intercept_on_sphere_and_bounds bmin.y bmax.y
          val1 val2 hny (le_of_lt (lt_of_le_of_lt hny hy))
          (by linarith [hclose]) (by linarith [hfar])
        have hv1 : bmin.z ≤ val1 ∧ val1 ≤ bmax.z := by
          rcases h1mem with rfl | rfl
          · exact ⟨le_refl _, le_of_lt hz⟩
          · exact ⟨le_of_lt hz, le_refl _⟩
        have hv2 : bmin.x ≤ val2 ∧ val2 ≤ bmax.x := by
          rcases h2mem with rfl | rfl
          · exact ⟨le_refl _, le_of_lt hx⟩
          · exact ⟨le_of_lt hx, le_refl _⟩
        refine ⟨?_, hv2.1, hv2.2, hIlo, hIhi, hv1.1, hv1.2⟩
        rw [V3.norm_eq_one_iff]
        simp only [V3.normSq]
        linarith [hsph]
      · -- axis = 2: fixed coordinates are x (index 0) and y (index 1)
        norm_num [V3.set, V3.zero, V3.get, List.mem_cons] at h1mem h2mem hclose hfar ⊢
        rw [V3.norm_lt_one_iff] at hclose
        rw [V3.one_lt_norm_iff] at hfar
        simp only [V3.normSq] at hclose hfar
        obtain ⟨hsph, hIlo, hIhi⟩ := intercept_on_sphere_and_bounds bmin.z bmax.z
          val1 val2 hnz (le_of_lt (lt_of_le_of_lt hnz hz))
          (by linarith [hclose]) (by linarith [hfar])
        have hv1 : bmin.x ≤ val1 ∧ val1 ≤ bmax.x := by
          rcases h1mem with rfl | rfl
          · exact ⟨le_refl _, le_of_lt hx⟩
          · exact ⟨le_of_lt hx, le_refl _⟩
        have hv2 : bmin.y ≤ val2 ∧ val2 ≤ bmax.y := by
          rcases h2mem with rfl | rfl
          · exact ⟨le_refl _, le_of_lt hy⟩
          · exact ⟨le_of_lt hy, le_refl _⟩
        refine ⟨?_, hv1.1, hv1.2, hv2.1, hv2.2, hIlo, hIhi⟩
        rw [V3.norm_eq_one_iff]
        simp only [V3.normSq]
        linarith [hsph]

/-- Witness for C9's theorem on the positive unit cube at the returned point
(1, 0, 0). -/
theorem computeBoxEdges_on_sphere_in_box_witness :
    (V3.mk 1 0 0).norm = 1 ∧
    (0 : ℝ) ≤ (V3.mk 1 0 0).x ∧ (V3.mk 1 0 0).x ≤ 1 ∧
    (0 : ℝ) ≤ (V3.mk 1 0 0).y ∧ (V3.mk 1 0 0).y ≤ 1 ∧
    (0 : ℝ) ≤ (V3.mk 1 0 0).z ∧ (V3.mk 1 0 0).z ≤ 1 := by
  have h := computeBoxEdges_on_sphere_in_box ⟨0, 0, 0⟩ ⟨1, 1, 1⟩
    ⟨le_refl 0, le_refl 0, le_refl 0⟩ (by norm_num) (by norm_num) (by norm_num)
    (by rw [V3.norm]; simp [V3.normSq])
    (one_le_sqrt_of_one_le (by norm_num [V3.normSq]))
    ⟨1, 0, 0⟩ (by rw [computeBoxEdges_unitCube]; simp)
  exact h

/-- When ComputeTriangleOutwardNormal returns, the returned normal has passed
its final componentwise-nonnegativity DRAKE_DEMAND. -/
theorem computeTriangleOutwardNormal_ok_nonneg {p0 p1 p2 : V3} {nd : V3 × ℝ}
    (h : computeTriangleOutwardNormal p0 p1 p2 = .ok nd) : nd.1.Nonneg := by
  simp only [computeTriangleOutwardNormal] at h
  by_cases c1 : p0.Nonneg ∧ p1.Nonneg ∧ p2.Nonneg
  · rw [if_neg (not_not_intro c1)] at h
    by_cases c2 : ((p2.sub p0).cross (p1.sub p0)).norm < 1 / 1000
    · rw [if_pos c2] at h
      exact absurd h (by simp)
    · rw [if_neg c2] at h
      by_cases c3 : (if (((p2.sub p0).cross (p1.sub p0)).sdiv
            (((p2.sub p0).cross (p1.sub p0)).norm)).sum < 0
          then (((p2.sub p0).cross (p1.sub p0)).sdiv
            (((p2.sub p0).cross (p1.sub p0)).norm)).neg
          else ((p2.sub p0).cross (p1.sub p0)).sdiv
            (((p2.sub p0).cross (p1.sub p0)).norm)).Nonneg
      · rw [if_neg (not_not_intro c3)] at h
        injection h with hpair
        rw [← hpair]
        exact c3
      · rw [if_pos c3] at h
        exact absurd h (by simp)
  · rw [if_pos c1] at h
    exact absurd h (by simp)

/-- When AreAllVerticesCoPlanar returns, the returned normal is componentwise
nonnegative (either the triangle normal, which passed its demand, or the zero
vector of the not-co-planar outcome). -/
theorem areAllVerticesCoPlanar_ok_nonneg {pts : List V3} {r : Bool × V3 × ℝ}
    (h : areAllVerticesCoPlanar pts = .ok r) : r.2.1.Nonneg := by
  rw [areAllVerticesCoPlanar] at h
  by_cases hlen : pts.length < 3
  · rw [if_pos hlen] at h
    exact absurd h (by simp)
  rw [if_neg hlen] at h
  cases htri : computeTriangleOutwardNormal (pts.getD 0 V3.zero) (pts.getD 1 V3.zero)
      (pts.getD 2 V3.zero) with
  | error e =>
    rw [htri, except_error_bind] at h
    exact absurd h (by simp)
  | ok nd =>
    simp only [htri, except_ok_bind] at h
    by_cases hck : coPlanarCheck nd.1 nd.2 (pts.drop 3) = true
    · rw [if_pos hck] at h
      injection h with hpair
      rw [← hpair]
      exact computeTriangleOutwardNormal_ok_nonneg htri
    · rw [if_neg hck] at h
      injection h with hpair
      rw [← hpair]
      exact ⟨le_refl 0, le_refl 0, le_refl 0⟩

/-- Evaluation of the triangle normal at the co-planar example vertices:
the cross product is (0,0,2) with norm 2, no flip, normal (0,0,1), d = 0. -/
theorem computeTriangleOutwardNormal_coplanarExample :
    computeTriangleOutwardNormal ⟨1, 0, 0⟩ ⟨0, 1, 0⟩ ⟨2, 1, 0⟩ =
      .ok (⟨0, 0, 1⟩, 0) := by
  have hcross : ((V3.mk 2 1 0).sub ⟨1, 0, 0⟩).cross ((V3.mk 0 1 0).sub ⟨1, 0, 0⟩) =
      ⟨0, 0, 2⟩ := by
    simp only [V3.sub, V3.cross, V3.mk.injEq]
    norm_num
  have hnorm : (V3.mk 0 0 2).norm = 2 := by
    rw [V3.norm]
    have : (V3.mk 0 0 2).normSq = 2 ^ 2 := by
      simp only [V3.normSq]
      norm_num
    rw [this, Real.sqrt_sq (by norm_num)]
  have hge : ¬ (((V3.mk 2 1 0).sub ⟨1, 0, 0⟩).cross
      ((V3.mk 0 1 0).sub ⟨1, 0, 0⟩)).norm < 1 / 1000 := by
    rw [hcross, hnorm]
    norm_num
  have hsdiv : (V3.mk 0 0 2).sdiv ((V3.mk 0 0 2).norm) = ⟨0, 0, 1⟩ := by
    rw [hnorm]
    simp only [V3.sdiv, V3.mk.injEq]
    norm_num
  have hif : (if ((((V3.mk 2 1 0).sub ⟨1, 0, 0⟩).cross
        ((V3.mk 0 1 0).sub ⟨1, 0, 0⟩)).sdiv
        ((((V3.mk 2 1 0).sub ⟨1, 0, 0⟩).cross
        ((V3.mk 0 1 0).sub ⟨1, 0, 0⟩)).norm)).sum < 0
      then ((((V3.mk 2 1 0).sub ⟨1, 0, 0⟩).cross
        ((V3.mk 0 1 0).sub ⟨1, 0, 0⟩)).sdiv
        ((((V3.mk 2 1 0).sub ⟨1, 0, 0⟩).cross
        ((V3.mk 0 1 0).sub ⟨1, 0, 0⟩)).norm)).neg
      else (((V3.mk 2 1 0).sub ⟨1, 0, 0⟩).cross
        ((V3.mk 0 1 0).sub ⟨1, 0, 0⟩)).sdiv
        ((((V3.mk 2 1 0).sub ⟨1, 0, 0⟩).cross
        ((V3.mk 0 1 0).sub ⟨1, 0, 0⟩)).norm)) = ⟨0, 0, 1⟩ := by
    rw [hcross, hsdiv]
    rw [if_neg (by simp only [V3.sum]; norm_num)]
  have h := ((computeTriangleOutwardNormal_cases ⟨1, 0, 0⟩ ⟨0, 1, 0⟩ ⟨2, 1, 0⟩
    ⟨by norm_num, by norm_num, by norm_num⟩
    ⟨by norm_num, by norm_num, by norm_num⟩
    ⟨by norm_num, by norm_num, by norm_num⟩).2 hge).1
    (by rw [hif]; exact ⟨by norm_num, by norm_num, by norm_num⟩)
  rw [hif] at h
  rw [h]
  have hdot : (V3.mk 1 0 0).dot ⟨0, 0, 1⟩ = 0 := by
    simp only [V3.dot]
    norm_num
  rw [hdot]

/-- C1 (counterexample): on the co-planar vertex list
[(1,0,0), (0,1,0), (2,1,0)] (three points, so co-planarity holds trivially
and the SOCP oracle is never consulted),
ComputeHalfSpaceRelaxationForBoxSphereIntersection returns n = (0,0,1), d = 0
through the co-planar early return: the normal is not strictly positive in
all components and d lies outside (0,1), yet no invariant failure is raised —
the postcondition DRAKE_DEMANDs guard only the SOCP path. -/
theorem halfSpaceRelaxation_coplanar_unchecked :
    computeHalfSpaceRelaxationForBoxSphereIntersection (fun _ => (V3.zero, 0))
      [⟨1, 0, 0⟩, ⟨0, 1, 0⟩, ⟨2, 1, 0⟩] = .ok (⟨0, 0, 1⟩, 0) ∧
    ¬ (0 < (V3.mk 0 0 1).x ∧ 0 < (V3.mk 0 0 1).y ∧ 0 < (V3.mk 0 0 1).z) ∧
    ¬ ((0 : ℝ) < 0 ∧ (0 : ℝ) < 1) := by
  refine ⟨?_, by norm_num, by norm_num⟩
  have hco : areAllVerticesCoPlanar [⟨1, 0, 0⟩, ⟨0, 1, 0⟩, ⟨2, 1, 0⟩] =
      .ok (true, ⟨0, 0, 1⟩, 0) := by
    rw [areAllVerticesCoPlanar]
    rw [if_neg (by norm_num)]
    have hget : ([⟨1, 0, 0⟩, ⟨0, 1, 0⟩, ⟨2, 1, 0⟩] : List V3).getD 0 V3.zero =
        ⟨1, 0, 0⟩ := rfl
    have hget1 : ([⟨1, 0, 0⟩, ⟨0, 1, 0⟩, ⟨2, 1, 0⟩] : List V3).getD 1 V3.zero =
        ⟨0, 1, 0⟩ := rfl
    have hget2 : ([⟨1, 0, 0⟩, ⟨0, 1, 0⟩, ⟨2, 1, 0⟩] : List V3).getD 2 V3.zero =
        ⟨2, 1, 0⟩ := rfl
    rw [hget, hget1, hget2]
    simp only [computeTriangleOutwardNormal_coplanarExample, except_ok_bind]
    have hdrop : ([⟨1, 0, 0⟩, ⟨0, 1, 0⟩, ⟨2, 1, 0⟩] : List V3).drop 3 = [] := rfl
    rw [hdrop]
    rfl
  rw [computeHalfSpaceRelaxationForBoxSphereIntersection]
  rw [if_neg (by norm_num)]
  simp only [hco, except_ok_bind]
  rw [if_pos trivial]

/-- C1 (amended): whenever ComputeHalfSpaceRelaxationForBoxSphereIntersection
returns (n, d), the normal n is componentwise nonnegative; and on the
non-co-planar path — the only path on which the SOCP is consulted — the
postcondition (n strictly positive in all three components and 0 < d < 1) is
enforced as a fatal DRAKE_DEMAND: a violating solver result becomes an error,
never a return value.  The co-planar early-return path performs no such check
(see the counterexample). -/
theorem halfSpaceRelaxation_postcondition_on_socp_path
    (socpSolve : List V3 → V3 × ℝ) (pts : List V3) (n : V3) (d : ℝ)
    (hres : computeHalfSpaceRelaxationForBoxSphereIntersection socpSolve pts =
      .ok (n, d)) :
    (0 ≤ n.x ∧ 0 ≤ n.y ∧ 0 ≤ n.z) ∧
    (∀ b : Bool, ∀ n0 : V3, ∀ d0 : ℝ,
      areAllVerticesCoPlanar pts = .ok (b, n0, d0) → b = false →
      (0 < n.x ∧ 0 < n.y ∧ 0 < n.z) ∧ 0 < d ∧ d < 1) := by
  rw [computeHalfSpaceRelaxationForBoxSphereIntersection] at hres
  by_cases hlen : pts.length < 3
  · rw [if_pos hlen] at hres
    exact absurd hres (by simp)
  rw [if_neg hlen] at hres
  cases hco : areAllVerticesCoPlanar pts with
  | error e =>
    rw [hco, except_error_bind] at hres
    exact absurd hres (by simp)
  | ok co =>
    simp only [hco, except_ok_bind] at hres
    constructor
    · by_cases hb : co.1 = true
      · rw [if_pos hb] at hres
        injection hres with hpair
        have hnn := areAllVerticesCoPlanar_ok_nonneg hco
        have h1 : co.2.1 = n := congrArg Prod.fst hpair
        rw [← h1]
        exact hnn
      · rw [if_neg hb] at hres
        by_cases hc1 : 0 < (socpSolve pts).1.x ∧ 0 < (socpSolve pts).1.y ∧
            0 < (socpSolve pts).1.z
        · rw [if_neg (not_not_intro hc1)] at hres
          by_cases hc2 : 0 < (socpSolve pts).2 ∧ (socpSolve pts).2 < 1
          · rw [if_neg (not_not_intro hc2)] at hres
            injection hres with hpair
            have h1 : (socpSolve pts).1 = n := congrArg Prod.fst hpair
            rw [← h1]
            exact ⟨le_of_lt hc1.1, le_of_lt hc1.2.1, le_of_lt hc1.2.2⟩
          · rw [if_pos hc2] at hres
            exact absurd hres (by simp)
        · rw [if_pos hc1] at hres
          exact absurd hres (by simp)
    · intro b n0 d0 hco2 hbf
      injection hco2 with hpair2
      have hb1 : co.1 = b := congrArg Prod.fst hpair2
      rw [if_neg (by rw [hb1, hbf]; exact Bool.false_ne_true)] at hres
      by_cases hc1 : 0 < (socpSolve pts).1.x ∧ 0 < (socpSolve pts).1.y ∧
          0 < (socpSolve pts).1.z
      · rw [if_neg (not_not_intro hc1)] at hres
        by_cases hc2 : 0 < (socpSolve pts).2 ∧ (socpSolve pts).2 < 1
        · rw [if_neg (not_not_intro hc2)] at hres
          injection hres with hpair
          have h1 : (socpSolve pts).1 = n := congrArg Prod.fst hpair
          have h2 : (socpSolve pts).2 = d := congrArg Prod.snd hpair
          rw [← h1, ← h2]
          exact ⟨hc1, hc2⟩
        · rw [if_pos hc2] at hres
          exact absurd hres (by simp)
      · rw [if_pos hc1] at hres
        exact absurd hres (by simp)

/-- Witness for C1's amended theorem: a concrete non-co-planar run —
vertices [(1,0,0),(0,1,0),(2,1,0),(0,0,1)] with the SOCP oracle returning
((1/2,1/2,1/2), 1/2) — on which the function returns that solution and the
postcondition holds. -/
theorem halfSpaceRelaxation_postcondition_witness :
    ((0 : ℝ) < (1 / 2 : ℝ) ∧ (0 : ℝ) < (1 / 2 : ℝ) ∧ (0 : ℝ) < (1 / 2 : ℝ)) ∧
    (0 : ℝ) < (1 / 2 : ℝ) ∧ (1 / 2 : ℝ) < 1 := by
  have hco : areAllVerticesCoPlanar
      [⟨1, 0, 0⟩, ⟨0, 1, 0⟩, ⟨2, 1, 0⟩, ⟨0, 0, 1⟩] =
      .ok (false, V3.zero, 0) := by
    rw [areAllVerticesCoPlanar]
    rw [if_neg (by norm_num)]
    have hget : ([⟨1, 0, 0⟩, ⟨0, 1, 0⟩, ⟨2, 1, 0⟩, ⟨0, 0, 1⟩] : List V3).getD 0
        V3.zero = ⟨1, 0, 0⟩ := rfl
    have hget1 : ([⟨1, 0, 0⟩, ⟨0, 1, 0⟩, ⟨2, 1, 0⟩, ⟨0, 0, 1⟩] : List V3).getD 1
        V3.zero = ⟨0, 1, 0⟩ := rfl
    have hget2 : ([⟨1, 0, 0⟩, ⟨0, 1, 0⟩, ⟨2, 1, 0⟩, ⟨0, 0, 1⟩] : List V3).getD 2
        V3.zero = ⟨2, 1, 0⟩ := rfl
    rw [hget, hget1, hget2]
    simp only [computeTriangleOutwardNormal_coplanarExample, except_ok_bind]
    have hdrop : ([⟨1, 0, 0⟩, ⟨0, 1, 0⟩, ⟨2, 1, 0⟩, ⟨0, 0, 1⟩] : List V3).drop 3 =
        [⟨0, 0, 1⟩] := rfl
    rw [hdrop]
    have hlt : 1 / 10 ^ 10 < |(V3.mk 0 0 1).dot ⟨0, 0, 1⟩ - 0| := by
      simp only [V3.dot]
      norm_num
    have hcpc : coPlanarCheck ⟨0, 0, 1⟩ 0 [⟨0, 0, 1⟩] = false := by
      simp only [coPlanarCheck]
      rw [if_pos hlt]
    simp only [hcpc]
    rfl
  have hres : computeHalfSpaceRelaxationForBoxSphereIntersection
      (fun _ => (⟨1 / 2, 1 / 2, 1 / 2⟩, 1 / 2))
      [⟨1, 0, 0⟩, ⟨0, 1, 0⟩, ⟨2, 1, 0⟩, ⟨0, 0, 1⟩] =
      .ok (⟨1 / 2, 1 / 2, 1 / 2⟩, 1 / 2) := by
    rw [computeHalfSpaceRelaxationForBoxSphereIntersection]
    rw [if_neg (by norm_num)]
    simp only [hco, except_ok_bind]
    rw [if_neg (show ¬ (((false, V3.zero, (0 : ℝ)).1 : Bool) = true) from
      Bool.false_ne_true)]
    show (if ¬ ((0 : ℝ) < (1 / 2 : ℝ) ∧ (0 : ℝ) < (1 / 2 : ℝ) ∧ (0 : ℝ) < (1 / 2 : ℝ))
        then (Except.error ("DRAKE_DEMAND failed: normal strictly positive") :
          Except String (V3 × ℝ))
        else if ¬ ((0 : ℝ) < (1 / 2 : ℝ) ∧ (1 / 2 : ℝ) < 1)
        then Except.error ("DRAKE_DEMAND failed: 0 < d < 1")
        else Except.ok (⟨1 / 2, 1 / 2, 1 / 2⟩, 1 / 2)) =
      Except.ok (⟨1 / 2, 1 / 2, 1 / 2⟩, 1 / 2)
    rw [if_neg (not_not_intro ⟨by norm_num, by norm_num, by norm_num⟩)]
    rw [if_neg (not_not_intro ⟨by norm_num, by norm_num⟩)]
  exact (halfSpaceRelaxation_postcondition_on_socp_path
    (fun _ => (⟨1 / 2, 1 / 2, 1 / 2⟩, 1 / 2))
    [⟨1, 0, 0⟩, ⟨0, 1, 0⟩, ⟨2, 1, 0⟩, ⟨0, 0, 1⟩]
    ⟨1 / 2, 1 / 2, 1 / 2⟩ (1 / 2) hres).2 false V3.zero 0 hco rfl

/-- C5: for every grid cell (xi, yi, zi) whose box does not intersect the
unit sphere's surface — box_min norm > 1 + 2 eps or box_max norm < 1 - 2 eps,
with eps the machine epsilon — the McCormick emitter's per-cell body emits,
for every one of the 8 orthants, the constraint that the sum of the cell's
three binary-indicator expressions is at least 1 (forbidding the binary
assignment that selects this interval combination in that orthant), and
nothing else. -/
theorem cellCons_no_intersection_forbids (socpSolve : List V3 → V3 × ℝ)
    (v v1 v2 : Var3) (Bv : ℕ → List ℕ) (gc : List (List ℤ)) (N xi yi zi : ℕ)
    (hA : 1 + 2 * machineEps <
        (V3.mk (envelopeMinValue xi N) (envelopeMinValue yi N)
          (envelopeMinValue zi N)).norm ∨
      (V3.mk (envelopeMinValue (xi + 1) N) (envelopeMinValue (yi + 1) N)
          (envelopeMinValue (zi + 1) N)).norm < 1 - 2 * machineEps) :
    cellCons socpSolve v v1 v2 Bv gc N xi yi zi =
      .ok ((List.range 8).map (fun o =>
        Cons.le (SymExpr.c 1) (orthantCSum xi yi zi o gc Bv N))) ∧
    ∀ o < 8, Cons.le (SymExpr.c 1) (orthantCSum xi yi zi o gc Bv N) ∈
      (List.range 8).map (fun o =>
        Cons.le (SymExpr.c 1) (orthantCSum xi yi zi o gc Bv N)) := by
  constructor
  · simp only [cellCons]
    rw [if_neg (by
      rintro ⟨hc1, hc2⟩
      rcases hA with h | h
      · exact absurd hc1 (not_le.mpr h)
      · exact absurd hc2 (not_le.mpr h))]
    rfl
  · intro o ho
    exact List.mem_map.mpr ⟨o, List.mem_range.mpr ho, rfl⟩

/-- Witness for C5's theorem: N = 2, cell (0,0,0) — the box
(0,0,0)-(1/2,1/2,1/2) has box_max norm sqrt(3/4) < 1 - 2 eps. -/
theorem cellCons_no_intersection_forbids_witness :
    ((1 : ℝ) + 2 * machineEps <
        (V3.mk (envelopeMinValue 0 2) (envelopeMinValue 0 2)
          (envelopeMinValue 0 2)).norm ∨
      (V3.mk (envelopeMinValue 1 2) (envelopeMinValue 1 2)
          (envelopeMinValue 1 2)).norm < 1 - 2 * machineEps) ∧
    cellCons (fun _ => (V3.zero, 0)) (0, 1, 2) (3, 4, 5) (6, 7, 8)
        (fun _ => [9]) [[0], [1]] 2 0 0 0 =
      .ok ((List.range 8).map (fun o =>
        Cons.le (SymExpr.c 1) (orthantCSum 0 0 0 o [[0], [1]] (fun _ => [9]) 2))) := by
  have hmax : (V3.mk (envelopeMinValue 1 2) (envelopeMinValue 1 2)
      (envelopeMinValue 1 2)).norm < 1 - 2 * machineEps := by
    have h1 : (V3.mk (envelopeMinValue 1 2) (envelopeMinValue 1 2)
        (envelopeMinValue 1 2)).normSq = 3 / 4 := by
      simp only [V3.normSq, envelopeMinValue]
      norm_num
    rw [V3.norm, h1, machineEps]
    rw [show (1 : ℝ) - 2 * (1 / 2 ^ 52) = Real.sqrt ((1 - 2 * (1 / 2 ^ 52)) ^ 2) from
      (Real.sqrt_sq (by norm_num)).symm]
    apply Real.sqrt_lt_sqrt (by norm_num)
    norm_num
  have hA := Or.inr (a := (1 : ℝ) + 2 * machineEps <
      (V3.mk (envelopeMinValue 0 2) (envelopeMinValue 0 2)
        (envelopeMinValue 0 2)).norm) hmax
  exact ⟨hA, (cellCons_no_intersection_forbids (fun _ => (V3.zero, 0))
    (0, 1, 2) (3, 4, 5) (6, 7, 8) (fun _ => [9]) [[0], [1]] 2 0 0 0 hA).1⟩

theorem filter_isRangeRow_le_map {β : Type} (l : List β) (f g : β → SymExpr) :
    (l.map (fun x => Cons.le (f x) (g x))).filter Cons.isRangeRow = [] := by
  apply List.filter_eq_nil_iff.mpr
  intro c hc
  obtain ⟨x, _, rfl⟩ := List.mem_map.mp hc
  simp [Cons.isRangeRow]

theorem stateCConsList_eq (normal : V3) (dval : ℝ) (facets : List (V3 × ℝ))
    (v v1 v2 : Var3) (gc : List (List ℤ)) (Bv : ℕ → List ℕ) (N xi yi zi : ℕ) :
    stateCConsList normal dval facets v v1 v2 gc Bv N xi yi zi =
    (List.range 8).flatMap (fun o =>
      (facets.map (fun f =>
        Cons.le ((dotE ((flipVector f.1.neg o).neg) v).sub (SymExpr.c f.2))
          (SymExpr.smul (1 - f.2) (orthantCSum xi yi zi o gc Bv N)))) ++
      (if o % 2 = 0 then [Cons.rangeRow (flipVector normal o) (-1) 1 v] else []) ++
      [Cons.le (dotE (flipVector normal o) v1)
         ((SymExpr.c (Real.sin (Real.arccos dval))).add (orthantCSum xi yi zi o gc Bv N)),
       Cons.le ((SymExpr.c (-(Real.sin (Real.arccos dval)))).sub
           (orthantCSum xi yi zi o gc Bv N)) (dotE (flipVector normal o) v1),
       Cons.le (dotE (flipVector normal o) v2)
         ((SymExpr.c (Real.sin (Real.arccos dval))).add (orthantCSum xi yi zi o gc Bv N)),
       Cons.le ((SymExpr.c (-(Real.sin (Real.arccos dval)))).sub
           (orthantCSum xi yi zi o gc Bv N)) (dotE (flipVector normal o) v2)] ++
      [Cons.leVec
         [((SymExpr.var v2.1).sub (crossE (flipVector normal o) v1).1,
           (SymExpr.c (2 * Real.sin (Real.arccos dval / 2))).add
             (SymExpr.smul 2 (orthantCSum xi yi zi o gc Bv N))),
          ((SymExpr.var v2.2.1).sub (crossE (flipVector normal o) v1).2.1,
           (SymExpr.c (2 * Real.sin (Real.arccos dval / 2))).add
             (SymExpr.smul 2 (orthantCSum xi yi zi o gc Bv N))),
          ((SymExpr.var v2.2.2).sub (crossE (flipVector normal o) v1).2.2,
           (SymExpr.c (2 * Real.sin (Real.arccos dval / 2))).add
             (SymExpr.smul 2 (orthantCSum xi yi zi o gc Bv N)))],
       Cons.leVec
         [((SymExpr.c (-(2 * Real.sin (Real.arccos dval / 2)))).sub
             (SymExpr.smul 2 (orthantCSum xi yi zi o gc Bv N)),
           (SymExpr.var v2.1).sub (crossE (flipVector normal o) v1).1),
          ((SymExpr.c (-(2 * Real.sin (Real.arccos dval / 2)))).sub
             (SymExpr.smul 2 (orthantCSum xi yi zi o gc Bv N)),
           (SymExpr.var v2.2.1).sub (crossE (flipVector normal o) v1).2.1),
          ((SymExpr.c (-(2 * Real.sin (Real.arccos dval / 2)))).sub
             (SymExpr.smul 2 (orthantCSum xi yi zi o gc Bv N)),
           (SymExpr.var v2.2.2).sub (crossE (flipVector normal o) v1).2.2)]]) := rfl

/-- In one State-C cell emission, exactly four norm-bound (rangeRow)
constraints appear: one per even orthant index. -/
theorem stateCCons_rangeRow_count (normal : V3) (dval : ℝ)
    (facets : List (V3 × ℝ)) (v v1 v2 : Var3) (gc : List (List ℤ))
    (Bv : ℕ → List ℕ) (N xi yi zi : ℕ) :
    ((stateCConsList normal dval facets v v1 v2 gc Bv N xi yi zi).filter
      Cons.isRangeRow).length = 4 := by
  rw [stateCConsList]
  have hrange : List.range 8 = [0, 1, 2, 3, 4, 5, 6, 7] := rfl
  rw [hrange]
  simp only [List.flatMap_cons, List.flatMap_nil, List.append_nil,
    List.filter_append, List.length_append, filter_isRangeRow_le_map]
  norm_num [List.filter, Cons.isRangeRow]

/-- C2 (amended): in the McCormick emitter's general-intersection (State C)
per-cell emission, the norm-bound constraint -1 <= (reflected normal).v <= 1
is emitted only for the four even orthant reflections o in {0, 2, 4, 6} —
four per cell, not eight.  Each odd orthant's reflected normal is the
negation of the complementary even orthant's (o versus 7 - o), so the four
even-orthant bounds already express the same constraints. -/
theorem stateCCons_norm_bound_even_orthants_only (normal : V3) (dval : ℝ)
    (facets : List (V3 × ℝ)) (v v1 v2 : Var3) (gc : List (List ℤ))
    (Bv : ℕ → List ℕ) (N xi yi zi : ℕ) :
    ((stateCConsList normal dval facets v v1 v2 gc Bv N xi yi zi).filter
      Cons.isRangeRow).length = 4 ∧
    (∀ o < 8, o % 2 = 0 →
      Cons.rangeRow (flipVector normal o) (-1) 1 v ∈
        stateCConsList normal dval facets v v1 v2 gc Bv N xi yi zi) ∧
    (∀ o < 8, o % 2 = 1 →
      flipVector normal o = (flipVector normal (7 - o)).neg) := by
  refine ⟨stateCCons_rangeRow_count normal dval facets v v1 v2 gc Bv N xi yi zi,
    ?_, ?_⟩
  · intro o ho hoe
    rw [stateCConsList_eq]
    apply List.mem_flatMap.mpr
    refine ⟨o, List.mem_range.mpr ho, ?_⟩
    rw [if_pos hoe]
    apply List.mem_append.mpr
    apply Or.inl
    apply List.mem_append.mpr
    apply Or.inl
    apply List.mem_append.mpr
    apply Or.inr
    exact List.mem_singleton.mpr rfl
  · intro o ho hoo
    interval_cases o <;> simp +decide [flipVector, V3.neg, V3.mk.injEq]

/-- Witness for C2's amended theorem: concrete data, the even orthant o = 2
and the odd orthant o = 1. -/
theorem stateCCons_norm_bound_even_orthants_only_witness :
    Cons.rangeRow (flipVector ⟨1, 2, 3⟩ 2) (-1) 1 (0, 1, 2) ∈
      stateCConsList ⟨1, 2, 3⟩ (1 / 2) [] (0, 1, 2) (3, 4, 5) (6, 7, 8)
        [[0], [1]] (fun _ => [9]) 1 0 0 0 ∧
    flipVector ⟨1, 2, 3⟩ 1 = (flipVector ⟨1, 2, 3⟩ (7 - 1)).neg := by
  have h := stateCCons_norm_bound_even_orthants_only ⟨1, 2, 3⟩ (1 / 2) []
    (0, 1, 2) (3, 4, 5) (6, 7, 8) [[0], [1]] (fun _ => [9]) 1 0 0 0
  exact ⟨h.2.1 2 (by norm_num) (by norm_num), h.2.2 1 (by norm_num) (by norm_num)⟩

/-- Evaluation of the triangle normal at the unit cube's intersection
vertices (in the order produced by ComputeBoxEdgesAndSphereIntersection). -/
theorem computeTriangleOutwardNormal_unitTriangle :
    computeTriangleOutwardNormal ⟨0, 0, 1⟩ ⟨0, 1, 0⟩ ⟨1, 0, 0⟩ =
      .ok (⟨1 / Real.sqrt 3, 1 / Real.sqrt 3, 1 / Real.sqrt 3⟩, 1 / Real.sqrt 3) := by
  have hcross : ((V3.mk 1 0 0).sub ⟨0, 0, 1⟩).cross ((V3.mk 0 1 0).sub ⟨0, 0, 1⟩) =
      ⟨1, 1, 1⟩ := by
    simp only [V3.sub, V3.cross, V3.mk.injEq]
    norm_num
  have hnorm : (V3.mk 1 1 1).norm = Real.sqrt 3 := by
    rw [V3.norm]
    norm_num [V3.normSq]
  have hs3 : (0 : ℝ) < Real.sqrt 3 := Real.sqrt_pos.mpr (by norm_num)
  have hge : ¬ (((V3.mk 1 0 0).sub ⟨0, 0, 1⟩).cross
      ((V3.mk 0 1 0).sub ⟨0, 0, 1⟩)).norm < 1 / 1000 := by
    rw [hcross, hnorm]
    push_neg
    calc (1 : ℝ) / 1000 ≤ 1 := by norm_num
    _ ≤ Real.sqrt 3 := one_le_sqrt_of_one_le (by norm_num)
  have hsdiv : (V3.mk 1 1 1).sdiv ((V3.mk 1 1 1).norm) =
      ⟨1 / Real.sqrt 3, 1 / Real.sqrt 3, 1 / Real.sqrt 3⟩ := by
    rw [hnorm]
    simp only [V3.sdiv]
  have hsum : ¬ (((V3.mk 1 1 1).sdiv ((V3.mk 1 1 1).norm)).sum < 0) := by
    rw [hsdiv]
    simp only [V3.sum]
    push_neg
    positivity
  have hif : (if ((((V3.mk 1 0 0).sub ⟨0, 0, 1⟩).cross
        ((V3.mk 0 1 0).sub ⟨0, 0, 1⟩)).sdiv
        ((((V3.mk 1 0 0).sub ⟨0, 0, 1⟩).cross
        ((V3.mk 0 1 0).sub ⟨0, 0, 1⟩)).norm)).sum < 0
      then ((((V3.mk 1 0 0).sub ⟨0, 0, 1⟩).cross
        ((V3.mk 0 1 0).sub ⟨0, 0, 1⟩)).sdiv
        ((((V3.mk 1 0 0).sub ⟨0, 0, 1⟩).cross
        ((V3.mk 0 1 0).sub ⟨0, 0, 1⟩)).norm)).neg
      else (((V3.mk 1 0 0).sub ⟨0, 0, 1⟩).cross
        ((V3.mk 0 1 0).sub ⟨0, 0, 1⟩)).sdiv
        ((((V3.mk 1 0 0).sub ⟨0, 0, 1⟩).cross
        ((V3.mk 0 1 0).sub ⟨0, 0, 1⟩)).norm)) =
      ⟨1 / Real.sqrt 3, 1 / Real.sqrt 3, 1 / Real.sqrt 3⟩ := by
    rw [hcross]
    rw [if_neg hsum]
    exact hsdiv
  have hnn : (0 : ℝ) ≤ 1 / Real.sqrt 3 := by positivity
  have h := ((computeTriangleOutwardNormal_cases ⟨0, 0, 1⟩ ⟨0, 1, 0⟩ ⟨1, 0, 0⟩
    ⟨by norm_num, by norm_num, by norm_num⟩
    ⟨by norm_num, by norm_num, by norm_num⟩
    ⟨by norm_num, by norm_num, by norm_num⟩).2 hge).1
    (by rw [hif]; exact ⟨hnn, hnn, hnn⟩)
  rw [hif] at h
  rw [h]
  have hdot : (V3.mk 0 0 1).dot ⟨1 / Real.sqrt 3, 1 / Real.sqrt 3, 1 / Real.sqrt 3⟩ =
      1 / Real.sqrt 3 := by
    simp only [V3.dot]
    ring
  rw [hdot]

/-- The half-space relaxation of the unit cube's intersection vertices is
found on the co-planar early-return path (exactly three vertices), for any
SOCP oracle. -/
theorem halfSpaceRelaxation_unitCubePts (socpSolve : List V3 → V3 × ℝ) :
    computeHalfSpaceRelaxationForBoxSphereIntersection socpSolve
      [⟨0, 0, 1⟩, ⟨0, 1, 0⟩, ⟨1, 0, 0⟩] =
      .ok (⟨1 / Real.sqrt 3, 1 / Real.sqrt 3, 1 / Real.sqrt 3⟩, 1 / Real.sqrt 3) := by
  have hco : areAllVerticesCoPlanar [⟨0, 0, 1⟩, ⟨0, 1, 0⟩, ⟨1, 0, 0⟩] =
      .ok (true, ⟨1 / Real.sqrt 3, 1 / Real.sqrt 3, 1 / Real.sqrt 3⟩,
        1 / Real.sqrt 3) := by
    rw [areAllVerticesCoPlanar]
    rw [if_neg (by norm_num)]
    have hget0 : ([⟨0, 0, 1⟩, ⟨0, 1, 0⟩, ⟨1, 0, 0⟩] : List V3).getD 0 V3.zero =
        ⟨0, 0, 1⟩ := rfl
    have hget1 : ([⟨0, 0, 1⟩, ⟨0, 1, 0⟩, ⟨1, 0, 0⟩] : List V3).getD 1 V3.zero =
        ⟨0, 1, 0⟩ := rfl
    have hget2 : ([⟨0, 0, 1⟩, ⟨0, 1, 0⟩, ⟨1, 0, 0⟩] : List V3).getD 2 V3.zero =
        ⟨1, 0, 0⟩ := rfl
    rw [hget0, hget1, hget2]
    simp only [computeTriangleOutwardNormal_unitTriangle, except_ok_bind]
    have hdrop : ([⟨0, 0, 1⟩, ⟨0, 1, 0⟩, ⟨1, 0, 0⟩] : List V3).drop 3 = [] := rfl
    rw [hdrop]
    rfl
  rw [computeHalfSpaceRelaxationForBoxSphereIntersection]
  rw [if_neg (by norm_num)]
  simp only [hco, except_ok_bind]
  rw [if_pos trivial]

/-- The inner facets of the unit cube's intersection vertices: the single
triangle through the three vertices, negated into a row of A x <= b. -/
theorem innerFacets_unitCubePts :
    computeInnerFacetsForBoxSphereIntersection [⟨0, 0, 1⟩, ⟨0, 1, 0⟩, ⟨1, 0, 0⟩] =
      .ok [((V3.mk (1 / Real.sqrt 3) (1 / Real.sqrt 3) (1 / Real.sqrt 3)).neg,
        -(1 / Real.sqrt 3))] := by
  rw [computeInnerFacetsForBoxSphereIntersection]
  rw [if_neg (not_not_intro (by
    intro p hp
    rcases List.mem_cons.mp hp with rfl | hp
    · exact ⟨by norm_num, by norm_num, by norm_num⟩
    rcases List.mem_cons.mp hp with rfl | hp
    · exact ⟨by norm_num, by norm_num, by norm_num⟩
    rcases List.mem_cons.mp hp with rfl | hp
    · exact ⟨by norm_num, by norm_num, by norm_num⟩
    · exact absurd hp (List.not_mem_nil p)))]
  have hlen : ([⟨0, 0, 1⟩, ⟨0, 1, 0⟩, ⟨1, 0, 0⟩] : List V3).length = 3 := rfl
  rw [hlen]
  have htrip : (List.range 3).flatMap (fun i =>
      (List.range 3).flatMap (fun j =>
        (List.range 3).filterMap (fun k =>
          if i < j ∧ j < k then some (i, j, k) else none))) = [(0, 1, 2)] := by
    decide
  rw [htrip]
  rw [List.foldlM_cons]
  have hget0 : ([⟨0, 0, 1⟩, ⟨0, 1, 0⟩, ⟨1, 0, 0⟩] : List V3).getD 0 V3.zero =
      ⟨0, 0, 1⟩ := rfl
  have hget1 : ([⟨0, 0, 1⟩, ⟨0, 1, 0⟩, ⟨1, 0, 0⟩] : List V3).getD 1 V3.zero =
      ⟨0, 1, 0⟩ := rfl
  have hget2 : ([⟨0, 0, 1⟩, ⟨0, 1, 0⟩, ⟨1, 0, 0⟩] : List V3).getD 2 V3.zero =
      ⟨1, 0, 0⟩ := rfl
  simp only [hget0, hget1, hget2, computeTriangleOutwardNormal_unitTriangle,
    except_ok_bind]
  rw [if_pos (by
    intro l hl h0 h1 h2
    rw [hlen] at hl
    omega)]
  rfl

/-- C2 (counterexample): for N = 1 the single grid cell (0,0,0) is in the
general-intersection State C (its geometry is the three unit vectors, their
co-planar half-space normal (1/sqrt 3, 1/sqrt 3, 1/sqrt 3) with d = 1/sqrt 3),
and the cell's emitted constraint block contains exactly 4 norm-bound
(rangeRow) constraints, not the 8 (one per orthant) the claim requires. -/
theorem mcCormick_norm_bound_count_four :
    Except.map (fun l => (l.filter Cons.isRangeRow).length)
      (cellCons (fun _ => (V3.zero, 0)) (0, 1, 2) (3, 4, 5) (6, 7, 8)
        (fun _ => [9]) [[0], [1]] 1 0 0 0) = .ok 4 ∧
    Except.map (fun l => (l.filter Cons.isRangeRow).length)
      (cellCons (fun _ => (V3.zero, 0)) (0, 1, 2) (3, 4, 5) (6, 7, 8)
        (fun _ => [9]) [[0], [1]] 1 0 0 0) ≠ .ok 8 := by
  have henv0 : envelopeMinValue 0 1 = (0 : ℝ) := by
    norm_num [envelopeMinValue]
  have henv1 : envelopeMinValue (0 + 1) 1 = (1 : ℝ) := by
    norm_num [envelopeMinValue]
  have hnorm0 : (V3.mk 0 0 0).norm = 0 := by
    rw [V3.norm]
    norm_num [V3.normSq]
  have hnorm3 : (V3.mk 1 1 1).norm = Real.sqrt 3 := by
    rw [V3.norm]
    norm_num [V3.normSq]
  have hs3ge : (1 : ℝ) + 2 * machineEps ≤ Real.sqrt 3 := by
    rw [machineEps]
    rw [show Real.sqrt 3 = Real.sqrt 3 from rfl]
    calc (1 : ℝ) + 2 * (1 / 2 ^ 52) =
        Real.sqrt ((1 + 2 * (1 / 2 ^ 52)) ^ 2) := by
          rw [Real.sqrt_sq (by norm_num)]
    _ ≤ Real.sqrt 3 := Real.sqrt_le_sqrt (by norm_num)
  have heps : (0 : ℝ) < machineEps := by norm_num [machineEps]
  have hcell : cellCons (fun _ => (V3.zero, 0)) (0, 1, 2) (3, 4, 5) (6, 7, 8)
      (fun _ => [9]) [[0], [1]] 1 0 0 0 =
      .ok (stateCConsList ⟨1 / Real.sqrt 3, 1 / Real.sqrt 3, 1 / Real.sqrt 3⟩
        (1 / Real.sqrt 3)
        [((V3.mk (1 / Real.sqrt 3) (1 / Real.sqrt 3) (1 / Real.sqrt 3)).neg,
          -(1 / Real.sqrt 3))]
        (0, 1, 2) (3, 4, 5) (6, 7, 8) [[0], [1]] (fun _ => [9]) 1 0 0 0) := by
    simp only [cellCons, henv0, henv1, hnorm0, hnorm3]
    rw [if_pos ⟨by norm_num [machineEps], by linarith⟩]
    rw [if_neg (not_or.mpr ⟨by rw [abs_of_nonpos (by norm_num)]; norm_num [machineEps],
      by
        rw [abs_of_nonneg (by
          have := one_le_sqrt_of_one_le (show (1 : ℝ) ≤ 3 by norm_num)
          linarith)]
        push_neg
        have h2 : (0 : ℝ) < 2 * machineEps := by norm_num [machineEps]
        linarith⟩)]
    rw [computeBoxEdges_unitCube]
    rw [if_neg (by norm_num)]
    simp only [halfSpaceRelaxation_unitCubePts, except_ok_bind,
      innerFacets_unitCubePts]
  rw [hcell]
  constructor
  · show Except.ok ((stateCConsList _ _ _ _ _ _ _ _ _ _ _ _).filter
      Cons.isRangeRow).length = Except.ok 4
    rw [stateCCons_rangeRow_count]
  · show Except.ok ((stateCConsList _ _ _ _ _ _ _ _ _ _ _ _).filter
      Cons.isRangeRow).length ≠ Except.ok 8
    rw [stateCCons_rangeRow_count]
    simp

end DrakeRotation
